import Mathlib

/-!
# Verification of the pietra immutable-collection core (src/index.js)

Shallow embedding of the two collection types (`CrioArray`, `CrioObject`),
the normalization function (`getRealValue`), the change-detection gate
(`returnCorrectObject`), and the deep-path engine (`assignOnDeepMatch`).

JavaScript values are modelled by the inductive type `JSVal`: primitives,
raw (mutable) arrays and objects, and the two frozen collection variants,
each carrying its stored `$$hashCode` metadata.  Hash codes are modelled by
`PureVal`, the structural content of a value with the raw/frozen
distinction erased: the external `hash` collaborator is specified only by
its contract (spec §3 I4, §6), and a deterministic structural fingerprint
satisfies that contract exactly.

Modelling conventions (documented simplifications of JavaScript semantics):
* property keys are either integer indices (for arrays) or strings (for
  objects); the string/number coercion of JS property access is not
  modelled, except where an operation in the source depends on it
  (`Object.assign` onto an array target);
* reference identity of operation results is captured by the `GateRes`
  type: `GateRes.orig` is the branch of the source that returns `this`
  (the same instance), `GateRes.fresh v` the branch that constructs a new
  collection `v`;
* errors are modelled by `Except CrioErr`; the two `throw new Error(...)`
  sites of the source are mapped to the spec's error taxonomy (§7):
  `CrioErr.rangeError` for the sparse-set rejection and
  `CrioErr.argumentError` for the non-array key-path rejection;
  `CrioErr.typeError` models a JS TypeError raised when a method of the
  wrong class is applied to a receiver that does not support it.
-/

/-- Structural content of a value: what the opaque `hash` collaborator
fingerprints.  Two values receive the same hash code iff they have the
same `PureVal` (spec §3 I4). -/
inductive PureVal : Type where
  | pnum (n : Int)
  | pstr (s : String)
  | pbool (b : Bool)
  | pundef
  | parr (l : List PureVal)
  | pobj (l : List (String × PureVal))
deriving Repr

namespace PureVal

mutual

/-- Structural Boolean equality on `PureVal` (the nested inductive blocks
automatic derivation of `DecidableEq`). -/
def beq : PureVal → PureVal → Bool
  | .pnum a, .pnum b => a == b
  | .pstr a, .pstr b => a == b
  | .pbool a, .pbool b => a == b
  | .pundef, .pundef => true
  | .parr a, .parr b => beqL a b
  | .pobj a, .pobj b => beqP a b
  | _, _ => false

/-- Elementwise `beq` on lists of `PureVal`. -/
def beqL : List PureVal → List PureVal → Bool
  | [], [] => true
  | a :: as, b :: bs => beq a b && beqL as bs
  | _, _ => false

/-- Elementwise `beq` on key/value pair lists. -/
def beqP : List (String × PureVal) → List (String × PureVal) → Bool
  | [], [] => true
  | (ka, va) :: as, (kb, vb) :: bs => ka == kb && beq va vb && beqP as bs
  | _, _ => false

end

mutual

theorem pbeq_iff : ∀ a b : PureVal, beq a b = true ↔ a = b
  | .pnum a, .pnum b => by simp [beq]
  | .pstr a, .pstr b => by simp [beq]
  | .pbool a, .pbool b => by simp [beq]
  | .pundef, .pundef => by simp [beq]
  | .parr a, .parr b => by simp [beq, pbeqL_iff a b]
  | .pobj a, .pobj b => by simp [beq, pbeqP_iff a b]
  | .pnum _, .pstr _ => by simp [beq]
  | .pnum _, .pbool _ => by simp [beq]
  | .pnum _, .pundef => by simp [beq]
  | .pnum _, .parr _ => by simp [beq]
  | .pnum _, .pobj _ => by simp [beq]
  | .pstr _, .pnum _ => by simp [beq]
  | .pstr _, .pbool _ => by simp [beq]
  | .pstr _, .pundef => by simp [beq]
  | .pstr _, .parr _ => by simp [beq]
  | .pstr _, .pobj _ => by simp [beq]
  | .pbool _, .pnum _ => by simp [beq]
  | .pbool _, .pstr _ => by simp [beq]
  | .pbool _, .pundef => by simp [beq]
  | .pbool _, .parr _ => by simp [beq]
  | .pbool _, .pobj _ => by simp [beq]
  | .pundef, .pnum _ => by simp [beq]
  | .pundef, .pstr _ => by simp [beq]
  | .pundef, .pbool _ => by simp [beq]
  | .pundef, .parr _ => by simp [beq]
  | .pundef, .pobj _ => by simp [beq]
  | .parr _, .pnum _ => by simp [beq]
  | .parr _, .pstr _ => by simp [beq]
  | .parr _, .pbool _ => by simp [beq]
  | .parr _, .pundef => by simp [beq]
  | .parr _, .pobj _ => by simp [beq]
  | .pobj _, .pnum _ => by simp [beq]
  | .pobj _, .pstr _ => by simp [beq]
  | .pobj _, .pbool _ => by simp [beq]
  | .pobj _, .pundef => by simp [beq]
  | .pobj _, .parr _ => by simp [beq]

theorem pbeqL_iff : ∀ as bs : List PureVal, beqL as bs = true ↔ as = bs
  | [], [] => by simp [beqL]
  | a :: as, b :: bs => by simp [beqL, pbeq_iff a b, pbeqL_iff as bs]
  | [], _ :: _ => by simp [beqL]
  | _ :: _, [] => by simp [beqL]

theorem pbeqP_iff : ∀ as bs : List (String × PureVal), beqP as bs = true ↔ as = bs
  | [], [] => by simp [beqP]
  | (ka, va) :: as, (kb, vb) :: bs => by
      simp [beqP, pbeq_iff va vb, pbeqP_iff as bs, and_assoc]
  | [], _ :: _ => by simp [beqP]
  | _ :: _, [] => by simp [beqP]

end

instance : DecidableEq PureVal := fun a b => decidable_of_iff _ (pbeq_iff a b)

end PureVal

/-- JavaScript values as seen by the source file: primitives, raw arrays,
raw objects (ordered own-property lists), and the two frozen collection
variants.  `crioA`/`crioO` carry the slot list and the stored
`$$hashCode` metadata (computed at construction from the raw input). -/
inductive JSVal : Type where
  | num (n : Int)
  | str (s : String)
  | bool (b : Bool)
  | undef
  | arr (l : List JSVal)
  | obj (l : List (String × JSVal))
  | crioA (l : List JSVal) (h : PureVal)
  | crioO (l : List (String × JSVal)) (h : PureVal)
deriving Repr

namespace JSVal

mutual

/-- Structural Boolean equality on `JSVal`. -/
def beq : JSVal → JSVal → Bool
  | .num a, .num b => a == b
  | .str a, .str b => a == b
  | .bool a, .bool b => a == b
  | .undef, .undef => true
  | .arr a, .arr b => beqL a b
  | .obj a, .obj b => beqP a b
  | .crioA a ha, .crioA b hb => beqL a b && decide (ha = hb)
  | .crioO a ha, .crioO b hb => beqP a b && decide (ha = hb)
  | _, _ => false

/-- Elementwise `beq` on lists of `JSVal`. -/
def beqL : List JSVal → List JSVal → Bool
  | [], [] => true
  | a :: as, b :: bs => beq a b && beqL as bs
  | _, _ => false

/-- Elementwise `beq` on key/value pair lists. -/
def beqP : List (String × JSVal) → List (String × JSVal) → Bool
  | [], [] => true
  | (ka, va) :: as, (kb, vb) :: bs => ka == kb && beq va vb && beqP as bs
  | _, _ => false

end

mutual

theorem beq_iff : ∀ a b : JSVal, beq a b = true ↔ a = b
  | .num a, .num b => by simp [beq]
  | .str a, .str b => by simp [beq]
  | .bool a, .bool b => by simp [beq]
  | .undef, .undef => by simp [beq]
  | .arr a, .arr b => by simp [beq, beqL_iff a b]
  | .obj a, .obj b => by simp [beq, beqP_iff a b]
  | .crioA a ha, .crioA b hb => by simp [beq, beqL_iff a b]
  | .crioO a ha, .crioO b hb => by simp [beq, beqP_iff a b]
  | .num _, .str _ => by simp [beq]
  | .num _, .bool _ => by simp [beq]
  | .num _, .undef => by simp [beq]
  | .num _, .arr _ => by simp [beq]
  | .num _, .obj _ => by simp [beq]
  | .num _, .crioA _ _ => by simp [beq]
  | .num _, .crioO _ _ => by simp [beq]
  | .str _, .num _ => by simp [beq]
  | .str _, .bool _ => by simp [beq]
  | .str _, .undef => by simp [beq]
  | .str _, .arr _ => by simp [beq]
  | .str _, .obj _ => by simp [beq]
  | .str _, .crioA _ _ => by simp [beq]
  | .str _, .crioO _ _ => by simp [beq]
  | .bool _, .num _ => by simp [beq]
  | .bool _, .str _ => by simp [beq]
  | .bool _, .undef => by simp [beq]
  | .bool _, .arr _ => by simp [beq]
  | .bool _, .obj _ => by simp [beq]
  | .bool _, .crioA _ _ => by simp [beq]
  | .bool _, .crioO _ _ => by simp [beq]
  | .undef, .num _ => by simp [beq]
  | .undef, .str _ => by simp [beq]
  | .undef, .bool _ => by simp [beq]
  | .undef, .arr _ => by simp [beq]
  | .undef, .obj _ => by simp [beq]
  | .undef, .crioA _ _ => by simp [beq]
  | .undef, .crioO _ _ => by simp [beq]
  | .arr _, .num _ => by simp [beq]
  | .arr _, .str _ => by simp [beq]
  | .arr _, .bool _ => by simp [beq]
  | .arr _, .undef => by simp [beq]
  | .arr _, .obj _ => by simp [beq]
  | .arr _, .crioA _ _ => by simp [beq]
  | .arr _, .crioO _ _ => by simp [beq]
  | .obj _, .num _ => by simp [beq]
  | .obj _, .str _ => by simp [beq]
  | .obj _, .bool _ => by simp [beq]
  | .obj _, .undef => by simp [beq]
  | .obj _, .arr _ => by simp [beq]
  | .obj _, .crioA _ _ => by simp [beq]
  | .obj _, .crioO _ _ => by simp [beq]
  | .crioA _ _, .num _ => by simp [beq]
  | .crioA _ _, .str _ => by simp [beq]
  | .crioA _ _, .bool _ => by simp [beq]
  | .crioA _ _, .undef => by simp [beq]
  | .crioA _ _, .arr _ => by simp [beq]
  | .crioA _ _, .obj _ => by simp [beq]
  | .crioA _ _, .crioO _ _ => by simp [beq]
  | .crioO _ _, .num _ => by simp [beq]
  | .crioO _ _, .str _ => by simp [beq]
  | .crioO _ _, .bool _ => by simp [beq]
  | .crioO _ _, .undef => by simp [beq]
  | .crioO _ _, .arr _ => by simp [beq]
  | .crioO _ _, .obj _ => by simp [beq]
  | .crioO _ _, .crioA _ _ => by simp [beq]

theorem beqL_iff : ∀ as bs : List JSVal, beqL as bs = true ↔ as = bs
  | [], [] => by simp [beqL]
  | a :: as, b :: bs => by simp [beqL, beq_iff a b, beqL_iff as bs]
  | [], _ :: _ => by simp [beqL]
  | _ :: _, [] => by simp [beqL]

theorem beqP_iff : ∀ as bs : List (String × JSVal), beqP as bs = true ↔ as = bs
  | [], [] => by simp [beqP]
  | (ka, va) :: as, (kb, vb) :: bs => by
      simp [beqP, beq_iff va vb, beqP_iff as bs, and_assoc]
  | [], _ :: _ => by simp [beqP]
  | _ :: _, [] => by simp [beqP]

end

instance : DecidableEq JSVal := fun a b => decidable_of_iff _ (beq_iff a b)

end JSVal

/-! ## Helper predicates (spec §1: `isArray`, `isObject`, `isCrio`, `isUndefined`)

Modelled from the spec: these generic predicates live in the external
`./utils` module (not part of src/).  Per spec §2/§9, "array-shaped"
covers raw arrays and the indexed collection variant, "object-shaped"
covers raw objects and the keyed collection variant (and excludes
array-shaped values), and `isCrio` recognizes the two frozen variants by
their discriminator tag. -/

/-- Modelled from the spec: the `isCrio` predicate of `./utils` — is the
value one of the two frozen collection variants (spec §9: check of the
`$$type` discriminator). -/
def isCrioB : JSVal → Bool
  | .crioA _ _ => true
  | .crioO _ _ => true
  | _ => false

/-- Modelled from the spec: the `isArray` predicate of `./utils` — is the
value array-shaped (a raw array or an indexed collection, spec §9). -/
def isArrayB : JSVal → Bool
  | .arr _ => true
  | .crioA _ _ => true
  | _ => false

/-- Modelled from the spec: the `isObject` predicate of `./utils` — is the
value object-shaped and not array-shaped (a raw object or a keyed
collection, spec §4.1). -/
def isObjectB : JSVal → Bool
  | .obj _ => true
  | .crioO _ _ => true
  | _ => false

/-- Modelled from the spec: the `isUndefined` predicate of `./utils`. -/
def isUndefinedB : JSVal → Bool
  | .undef => true
  | _ => false

/-- Array-shaped or object-shaped (the auto-vivification test of
`assignOnDeepMatch`, src/index.js line 99). -/
def isContainerB (v : JSVal) : Bool := isArrayB v || isObjectB v

/-- The reserved metadata property names (`NATIVE_KEYS`, src/index.js
lines 33-37). -/
def NATIVE_KEYS : List String := ["$$hashCode", "$$type", "length"]

/-- Is `k` one of the reserved metadata names? -/
def isReservedKey (k : String) : Bool := NATIVE_KEYS.contains k

/-! ## Structural content (the hash model)

Modelled from the spec: the external `hash` collaborator (spec §3 I4, §6)
is an opaque deterministic fingerprint of a value's raw content, with
nested collection values fingerprinting the same as the raw content they
normalize.  We model the hash code of a value as its full structural
content `denote v : PureVal`: raw/frozen distinctions are erased and the
stored metadata of a collection is ignored, exactly the equivalence that
I4 demands ("structurally identical raw content (including nested
collections) always yields the same hash code"), with collisions between
different contents excluded (I4 permits them only with negligible
probability, and I5/equality are specified in terms of the ideal
behavior). -/

mutual

/-- The structural content of a value: the modelled hash code. -/
def denote : JSVal → PureVal
  | .num n => .pnum n
  | .str s => .pstr s
  | .bool b => .pbool b
  | .undef => .pundef
  | .arr l => .parr (denoteL l)
  | .obj l => .pobj (denoteP l)
  | .crioA l _ => .parr (denoteL l)
  | .crioO l _ => .pobj (denoteP l)

/-- `denote` mapped over a list. -/
def denoteL : List JSVal → List PureVal
  | [] => []
  | v :: r => denote v :: denoteL r

/-- `denote` mapped over the values of a pair list. -/
def denoteP : List (String × JSVal) → List (String × PureVal)
  | [] => []
  | (k, v) :: r => (k, denote v) :: denoteP r

end

theorem denoteL_eq_map : ∀ l : List JSVal, denoteL l = l.map denote
  | [] => rfl
  | v :: r => by simp [denoteL, denoteL_eq_map r]

theorem denoteP_eq_map : ∀ l : List (String × JSVal),
    denoteP l = l.map (fun p => (p.1, denote p.2))
  | [] => rfl
  | (k, v) :: r => by simp [denoteP, denoteP_eq_map r]

/-! ## Normalization (`getRealValue`, src/index.js lines 46-60) and the
two constructors (lines 116-133 and 681-704)

`getRealValue` returns collection values unchanged, wraps raw arrays as
`CrioArray` and raw objects as `CrioObject`, and passes primitives
through.  The constructors:

* `CrioArray` (lines 116-133): if the input is already a collection
  value of either kind, return it (the entry check tests only `isCrio`);
  otherwise normalize every element with `getRealValue`, compute
  `hash(array)` on the raw input, and freeze.
* `CrioObject` (lines 681-704): same entry check; otherwise enumerate the
  own property names of the input, skipping `NATIVE_KEYS`, normalize each
  value, compute `hash(object)` on the raw input, and freeze.

The mutual block below fuses the constructor bodies with `getRealValue`
(the source's recursion through slot values); `CrioArray_construct` /
`CrioObject_construct` below restate the constructor entry points,
including `CrioObject`'s behavior on a raw array input (own property
names of an array are its indices plus the excluded `length`). -/

/-- Drop the reserved metadata names from an own-property list
(src/index.js line 691 and 916). -/
def filterReserved (l : List (String × JSVal)) : List (String × JSVal) :=
  l.filter (fun p => !isReservedKey p.1)

mutual

/-- `getRealValue` (src/index.js lines 46-60): collection values pass
through, raw arrays and objects are wrapped (normalizing recursively and
hashing the raw input), anything else passes through. -/
def getRealValue : JSVal → JSVal
  | .arr l => .crioA (normL l) (.parr (denoteL l))
  | .obj l => .crioO (filterReserved (normP l)) (.pobj (denoteP l))
  | v => v

/-- `getRealValue` applied to every element (the element loop of the
`CrioArray` constructor, src/index.js lines 123-125). -/
def normL : List JSVal → List JSVal
  | [] => []
  | v :: r => getRealValue v :: normL r

/-- `getRealValue` applied to every value of a pair list (the key loop of
the `CrioObject` constructor, src/index.js lines 690-696; the reserved-key
filter commutes with per-value normalization and is applied outside). -/
def normP : List (String × JSVal) → List (String × JSVal)
  | [] => []
  | (k, v) :: r => (k, getRealValue v) :: normP r

end

/-- Own-property pairs of a raw array: its indices in order (the
non-enumerable `length` is listed by `getOwnPropertyNames` but is one of
the excluded `NATIVE_KEYS`, so it is dropped here). -/
def indexPairs (l : List JSVal) : List (String × JSVal) :=
  (l.enum.map fun p => (toString p.1, p.2))

/-- The `CrioArray` constructor (src/index.js lines 116-133).  On a
collection value of either kind: returned unchanged.  On a raw array:
normalize elements, hash the raw input, freeze.  The source's behavior on
any other input reads an undefined `length` and builds no slots; it is
unreachable from the factory, the gate and `getRealValue`, and is
modelled as an empty collection. -/
def CrioArray_construct (v : JSVal) : JSVal :=
  match v with
  | .crioA l h => .crioA l h
  | .crioO l h => .crioO l h
  | .arr l => .crioA (normL l) (.parr (denoteL l))
  | w => .crioA [] (denote w)

/-- The `CrioObject` constructor (src/index.js lines 681-704).  On a
collection value of either kind: returned unchanged.  On a raw object:
enumerate own property names excluding `NATIVE_KEYS`, normalize values,
hash the raw input, freeze.  On a raw array (reachable through the merge
path of `assignOnDeepMatch`): the own property names are the indices plus
the excluded `length`, giving index-keyed slots.  Any other input has no
own properties. -/
def CrioObject_construct (v : JSVal) : JSVal :=
  match v with
  | .crioA l h => .crioA l h
  | .crioO l h => .crioO l h
  | .obj l => .crioO (filterReserved (normP l)) (.pobj (denoteP l))
  | .arr l => .crioO (indexPairs (normL l)) (.parr (denoteL l))
  | w => .crioO [] (denote w)

/-- The top-level factory `crio` (src/index.js lines 996-1006): arrays to
`CrioArray`, objects to `CrioObject`, anything else passes through. -/
def crio (object : JSVal) : JSVal :=
  if isArrayB object then CrioArray_construct object
  else if isObjectB object then CrioObject_construct object
  else object

/-! ## Errors, the change-detection gate, and reference identity -/

/-- The spec's error taxonomy (§7).  The source throws generic `Error`
objects; the spec names the sparse-set rejection `RangeError` and the
non-array key-path rejection `ArgumentError`.  `typeError` models a
JavaScript `TypeError` raised when a method body is applied to a receiver
lacking the operations it uses. -/
inductive CrioErr : Type where
  | rangeError
  | argumentError
  | typeError
deriving DecidableEq, Repr

/-- Result of a gate-routed operation, keeping reference identity
observable: `orig` is the source branch returning `this` (the same
instance); `fresh v` is the branch constructing the new collection
`v`. -/
inductive GateRes : Type where
  | orig
  | fresh (v : JSVal)
deriving DecidableEq, Repr

/-- Collapse a `GateRes` to the returned value (`self` is the receiver
whose identity `orig` preserves). -/
def resolveGate (self : JSVal) : GateRes → JSVal
  | .orig => self
  | .fresh v => v

/-- The stored `$$hashCode` metadata: present exactly on collection
values (reading the property on a plain array/object yields
`undefined`). -/
def hashCodeOf : JSVal → Option PureVal
  | .crioA _ h => some h
  | .crioO _ h => some h
  | _ => none

/-- Modelled from the spec: the `hasChanged` helper of `./utils` — per
spec §4.2 the gate "computes `hash(candidate)` and compares against
`original.hashCode`".  When the receiver is not a collection value its
`$$hashCode` reads `undefined`, which never equals a hash code. -/
def hasChanged (crio newObject : JSVal) : Bool :=
  match hashCodeOf crio with
  | some h => decide (denote newObject ≠ h)
  | none => true

/-- The change-detection gate `returnCorrectObject` (src/index.js lines
70-76): if the candidate's hash differs from the original's stored hash
code, construct a new collection from the candidate; otherwise return the
original instance. -/
def returnCorrectObject (crio newObject : JSVal) (ctor : JSVal → JSVal) : GateRes :=
  if hasChanged crio newObject then .fresh (ctor newObject) else .orig

/-! ## Property access and assignment -/

/-- First binding of key `s` in an ordered own-property list. -/
def assocGet (l : List (String × JSVal)) (s : String) : Option JSVal :=
  (l.find? (fun p => p.1 == s)).map (fun p => p.2)

/-- JavaScript property write on an object: an existing key keeps its
position (first binding updated), a new key is appended at the end. -/
def assocSet : List (String × JSVal) → String → JSVal → List (String × JSVal)
  | [], s, w => [(s, w)]
  | (k, v) :: r, s, w =>
      if k = s then (k, w) :: r else (k, v) :: assocSet r s w

/-- JavaScript element write on an array: in-range indices update, the
index `length` appends, larger indices pad with holes (holes read back as
`undefined`; the hole/undefined distinction is not modelled). -/
def setPad (l : List JSVal) (i : Nat) (w : JSVal) : List JSVal :=
  if i < l.length then l.set i w
  else l ++ List.replicate (i - l.length) .undef ++ [w]

/-- Property read `v[k]`: integer keys read array slots, string keys read
object slots, everything else is `undefined`.  (JS string/number key
coercion and reads of the hidden metadata properties are not modelled;
no claim depends on them.) -/
def mget (v : JSVal) (k : JSVal) : JSVal :=
  match v, k with
  | .arr l, .num i => if 0 ≤ i then l.getD i.toNat .undef else .undef
  | .crioA l _, .num i => if 0 ≤ i then l.getD i.toNat .undef else .undef
  | .obj l, .str s => (assocGet l s).getD .undef
  | .crioO l _, .str s => (assocGet l s).getD .undef
  | _, _ => (.undef)

/-- Property write `v[k] = w`: writes to raw containers with a matching
key kind take effect; writes to frozen collection values are silent
no-ops (sloppy mode), as are writes to primitives and kind-mismatched
keys (negative indices and other JS expando corners are not modelled). -/
def massign (v k w : JSVal) : JSVal :=
  match v, k with
  | .arr l, .num i => if 0 ≤ i then .arr (setPad l i.toNat w) else .arr l
  | .obj l, .str s => .obj (assocSet l s w)
  | _, _ => v

/-- Modelled from the spec: the `shallowCloneArray` helper of `./utils` —
produce a plain mutable array holding the collection's slot values
(spec §4.3: "clones the underlying raw sequence").  In a pure model the
clone of an immutable list is the list itself. -/
def shallowCloneArray : JSVal → List JSVal
  | .crioA l _ => l
  | .arr l => l
  | _ => []

/-- The elements an array-shaped value exposes to reads, iteration and
spreading. -/
def arrayElems : JSVal → List JSVal
  | .crioA l _ => l
  | .arr l => l
  | _ => []

/-- Own enumerable properties, in order, as seen by object spread
`{...v}` and by `Object.assign` sources: slots for collections (the
metadata is non-enumerable), index-keyed entries for arrays, pairs for
raw objects, nothing for primitives (string receivers spread their
characters; not modelled, unreachable in the claims). -/
def spreadPairs : JSVal → List (String × JSVal)
  | .obj l => l
  | .crioO l _ => l
  | .arr l => indexPairs l
  | .crioA l _ => indexPairs l
  | _ => []

/-! ## thaw (src/index.js lines 606-610 and 910-925) -/

mutual

/-- `thaw`: recursively convert a collection value back to plain mutable
structures; each slot value is thawed when it is itself a collection and
passed through otherwise (the per-item `isCrio(item) ? item.thaw() : item`
of the source is exactly this function, which is the identity on
non-collection values).  `CrioObject.thaw` enumerates own property names
excluding `NATIVE_KEYS`. -/
def thaw : JSVal → JSVal
  | .crioA l _ => .arr (thawL l)
  | .crioO l _ => .obj (filterReserved (thawP l))
  | v => v

/-- `thaw` over the elements of an indexed collection. -/
def thawL : List JSVal → List JSVal
  | [] => []
  | v :: r => thaw v :: thawL r

/-- `thaw` over the values of a keyed collection. -/
def thawP : List (String × JSVal) → List (String × JSVal)
  | [] => []
  | (k, v) :: r => (k, thaw v) :: thawP r

end

/-! ## getIn (src/index.js lines 304-325 and 754-775; the two method
bodies are verbatim identical) -/

/-- Coerce the validated key-path argument to its element list. -/
def asList : JSVal → List JSVal
  | .arr l => l
  | .crioA l _ => l
  | _ => []

/-- The `getIn` walk (src/index.js lines 309-324): step through the keys,
returning early with `undefined` as soon as an intermediate value is
absent, and returning the addressed value at the last key; an empty key
list falls off the loop and returns `undefined`. -/
def getInLoop : JSVal → List JSVal → JSVal
  | _, [] => .undef
  | cur, [k] => mget cur k
  | cur, k :: k2 :: rest =>
      if isUndefinedB (mget cur k) then .undef
      else getInLoop (mget cur k) (k2 :: rest)

/-- `getIn(keys)` for either collection kind: reject a non-array `keys`
argument with the spec's ArgumentError, then walk. -/
def crioGetIn (c keys : JSVal) : Except CrioErr JSVal :=
  if isArrayB keys then .ok (getInLoop c (asList keys))
  else .error .argumentError

/-- `CrioArray.get(index)` (src/index.js lines 294-296): `this[index]`. -/
def CrioArray_get (c index : JSVal) : JSVal := mget c index

/-- `CrioObject.get(key)` (src/index.js lines 744-746):
`this[key.toString()]`. -/
def CrioObject_get (c : JSVal) (key : String) : JSVal := mget c (.str key)

/-! ## set (src/index.js lines 511-523 and 880-888) -/

/-- `CrioArray.set(key, value)` before collapsing identity (src/index.js
lines 511-523): reject an index strictly greater than the current length
(`Cannot set a key for sparsed array`, the spec's RangeError), otherwise
clone the sequence, assign at the index, and route the clone through the
gate.  The method is only ever invoked on `CrioArray` instances; other
receivers lack the slots the body reads and are modelled as a
TypeError. -/
def CrioArray_setR (c : JSVal) (key : Nat) (value : JSVal) : Except CrioErr GateRes :=
  match c with
  | .crioA l _ =>
      if l.length < key then .error .rangeError
      else .ok (returnCorrectObject c (.arr (setPad l key value)) CrioArray_construct)
  | _ => .error .typeError

/-- `CrioArray.set` with the identity collapsed to the returned value. -/
def CrioArray_set (c : JSVal) (key : Nat) (value : JSVal) : Except CrioErr JSVal :=
  (CrioArray_setR c key value).map (resolveGate c)

/-- `CrioObject.set(key, value)` before collapsing identity (src/index.js
lines 880-888): spread the receiver into a plain clone (`{...this}` copies
the own enumerable properties), assign the key, and route the clone
through the gate (no range restriction). -/
def CrioObject_setR (c : JSVal) (key : String) (value : JSVal) : GateRes :=
  returnCorrectObject c (.obj (assocSet (spreadPairs c) key value)) CrioObject_construct

/-- `CrioObject.set` with the identity collapsed to the returned value. -/
def CrioObject_set (c : JSVal) (key : String) (value : JSVal) : JSVal :=
  resolveGate c (CrioObject_setR c key value)

/-! ## concat, slice, unshift (src/index.js lines 150-160, 555-561,
636-645) -/

/-- How `Array.prototype.concat` treats one argument: genuine raw arrays
are spread one level, everything else (collection values included — the
classes do not extend `Array`) is appended as a single element. -/
def concatSpread : JSVal → List JSVal
  | .arr l => l
  | v => [v]

/-- `CrioArray.concat(...arrays)` (src/index.js lines 150-160): with no
arguments return `this`; otherwise clone, apply the native concat, and
always construct a new collection directly (no gate). -/
def CrioArray_concatR (c : JSVal) (arrays : List JSVal) : GateRes :=
  if arrays.isEmpty then .orig
  else
    .fresh (CrioArray_construct
      (.arr (shallowCloneArray c ++ arrays.foldr (fun a acc => concatSpread a ++ acc) [])))

/-- `CrioArray.concat` with the identity collapsed. -/
def CrioArray_concat (c : JSVal) (arrays : List JSVal) : JSVal :=
  resolveGate c (CrioArray_concatR c arrays)

/-- One boundary argument of `Array.prototype.slice`: negative values
count from the end, results are clamped to `[0, n]`. -/
def jsSliceIdx (n : Nat) (i : Int) : Nat :=
  if i < 0 then ((n : Int) + i).toNat else min i.toNat n

/-- `Array.prototype.slice.apply(this, args)` for up to two integer
arguments (reading the receiver's slots; further arguments are
ignored). -/
def jsSlice (l : List JSVal) (args : List Int) : List JSVal :=
  let n := l.length
  let s := jsSliceIdx n (args.headD 0)
  let e := match args.get? 1 with
           | some x => jsSliceIdx n x
           | none => n
  (l.take e).drop s

/-- `CrioArray.slice(...args)` (src/index.js lines 555-561): with no
arguments return `this`; otherwise always construct a new collection
directly from the native slice of the receiver (no gate). -/
def CrioArray_sliceR (c : JSVal) (args : List Int) : GateRes :=
  if args.isEmpty then .orig
  else .fresh (CrioArray_construct (.arr (jsSlice (arrayElems c) args)))

/-- `CrioArray.slice` with the identity collapsed. -/
def CrioArray_slice (c : JSVal) (args : List Int) : JSVal :=
  resolveGate c (CrioArray_sliceR c args)

/-- `CrioArray.unshift(...items)` (src/index.js lines 636-645): with no
arguments return `this`; otherwise always construct a new collection
directly from `[...items, ...this]` (no gate; spreading the receiver
yields its slot values in order). -/
def CrioArray_unshiftR (c : JSVal) (items : List JSVal) : GateRes :=
  if items.isEmpty then .orig
  else .fresh (CrioArray_construct (.arr (items ++ arrayElems c)))

/-- `CrioArray.unshift` with the identity collapsed. -/
def CrioArray_unshift (c : JSVal) (items : List JSVal) : JSVal :=
  resolveGate c (CrioArray_unshiftR c items)

/-! ## merge (src/index.js lines 396-406 and 812-822)

Both merge bodies are also applied, via `Crio.prototype.merge.apply`, to
*raw* receivers by the deep-path engine (src/index.js line 106), so they
are modelled as functions of an arbitrary receiver. -/

/-- JavaScript truthiness of the modelled values (`NaN` and `null` are
not modelled). -/
def truthy : JSVal → Bool
  | .num n => decide (n ≠ 0)
  | .str s => decide (s ≠ "")
  | .bool b => b
  | .undef => false
  | _ => true

/-- The `a || b` fallback used by the indexed merge callback. -/
def jsOr (a b : JSVal) : JSVal := if truthy a then a else b

/-- `object[keyIndex]` with a numeric index: element read on array-shaped
values, coerced string-key read on object-shaped values, `undefined`
otherwise. -/
def propNum (v : JSVal) (i : Nat) : JSVal :=
  match v with
  | .arr l => l.getD i .undef
  | .crioA l _ => l.getD i .undef
  | .obj l => (assocGet l (toString i)).getD .undef
  | .crioO l _ => (assocGet l (toString i)).getD .undef
  | _ => (.undef)

/-- One round of the indexed merge (src/index.js lines 400-402):
`clone.map((key, keyIndex) => object[keyIndex] || clone[keyIndex])` —
take the object's element when truthy, else keep the clone's; only the
clone's indices are visited. -/
def mergeMapOnce (cl : List JSVal) (ob : JSVal) : List JSVal :=
  cl.enum.map fun p => jsOr (propNum ob p.1) p.2

/-- The indexed merge folded over all argument objects. -/
def mergeMapFold (cl : List JSVal) (objs : List JSVal) : List JSVal :=
  objs.foldl mergeMapOnce cl

/-- `CrioArray.prototype.merge` applied to a receiver (src/index.js lines
396-406): collection receivers are shallow-cloned, raw arrays are used
as-is (`clone.map` allocates, so the receiver is never mutated), and the
result is routed through the gate — which always constructs for a raw
receiver, whose `$$hashCode` reads `undefined`.  A receiver without
`.map` (a raw object, or a keyed collection handed to
`shallowCloneArray`) raises a TypeError. -/
def CrioArray_merge (receiver : JSVal) (objs : List JSVal) : Except CrioErr JSVal :=
  match receiver with
  | .crioA l _ =>
      .ok (resolveGate receiver
        (returnCorrectObject receiver (.arr (mergeMapFold l objs)) CrioArray_construct))
  | .arr l =>
      .ok (resolveGate receiver
        (returnCorrectObject receiver (.arr (mergeMapFold l objs)) CrioArray_construct))
  | _ => .error .typeError

/-- Value of a decimal digit character. -/
def digitVal (c : Char) : Option Nat :=
  if 48 ≤ c.toNat ∧ c.toNat ≤ 57 then some (c.toNat - 48) else none

/-- Parse a *canonical* decimal array-index string (what JavaScript
treats as an element key: digits only, no leading zero except `"0"`
itself). -/
def parseIndex (s : String) : Option Nat :=
  match s.data with
  | [] => none
  | [c] => digitVal c
  | c :: cs =>
      match digitVal c with
      | none => none
      | some 0 => none
      | some d =>
          cs.foldl
            (fun acc ch =>
              match acc, digitVal ch with
              | some n, some dd => some (n * 10 + dd)
              | _, _ => none)
            (some d)

/-- One property copy of `Object.assign`: writes onto a raw object
update-or-append; writes onto a raw array hit the element a canonical
numeric key denotes (other keys would create expando properties, not
modelled, unreachable in the claims); frozen and primitive targets are
silent no-ops. -/
def assignProp (target : JSVal) (k : String) (v : JSVal) : JSVal :=
  match target with
  | .obj l => .obj (assocSet l k v)
  | .arr l =>
      match parseIndex k with
      | some i => .arr (setPad l i v)
      | none => .arr l
  | _ => target

/-- `Object.assign(target, source)`: copy the source's own enumerable
properties onto the target in order. -/
def objAssign (target source : JSVal) : JSVal :=
  (spreadPairs source).foldl (fun t p => assignProp t p.1 p.2) target

/-- `Object.assign` folded over all argument objects (the `forEach` of
src/index.js lines 817-819). -/
def objAssignFold (target : JSVal) (objs : List JSVal) : JSVal :=
  objs.foldl objAssign target

/-- `CrioObject.prototype.merge` applied to a receiver (src/index.js
lines 812-822): a collection receiver is spread into a plain clone, a raw
receiver *is* the clone (aliased — `Object.assign` mutates it in place);
all argument objects are assigned onto the clone and the result is routed
through the gate, which always constructs for a raw receiver. -/
def CrioObject_merge (receiver : JSVal) (objs : List JSVal) : JSVal :=
  let clone0 : JSVal := if isCrioB receiver then .obj (spreadPairs receiver) else receiver
  let cand := objAssignFold clone0 objs
  resolveGate receiver (returnCorrectObject receiver cand CrioObject_construct)

/-! ## Deep-path engine (`assignOnDeepMatch`, src/index.js lines 87-113)

The source thaws the root, walks the key path through the mutable copy
(auto-vivifying a fresh `{}` wherever the value addressed next is neither
array- nor object-shaped), applies the terminal assignment or merge, and
routes the mutated root through the gate.  Because each intermediate
container is reached through its parent slot, the in-place mutation is
equivalent to the pure bottom-up reassembly below. -/

/-- The per-key walk of `assignOnDeepMatch` (the `forEach` of src/index.js
lines 96-110) on the thawed structure.  At every key, a non-container
value addressed by the key is first replaced by `{}` (line 100).  At the
last key: in merge mode, apply the merge method of the *current
container's* kind — `isArray(currentObject)`, line 104 — to the addressed
value; in assign mode, overwrite with `value`.  At an intermediate key,
descend. -/
def deepWalk (isMerge : Bool) (value : JSVal) : JSVal → List JSVal → Except CrioErr JSVal
  | cur, [] => .ok cur
  | cur, [k] =>
      let cv := mget cur k
      let cv2 := if isContainerB cv then cv else .obj []
      let cur2 := if isContainerB cv then cur else massign cur k (.obj [])
      if isMerge then do
        let merged ←
          if isArrayB cur2 then CrioArray_merge cv2 (asList value)
          else .ok (CrioObject_merge cv2 (asList value))
        .ok (massign cur2 k merged)
      else .ok (massign cur2 k value)
  | cur, k :: k2 :: rest => do
      let cv := mget cur k
      let cv2 := if isContainerB cv then cv else .obj []
      let cur2 := if isContainerB cv then cur else massign cur k (.obj [])
      let sub ← deepWalk isMerge value cv2 (k2 :: rest)
      .ok (massign cur2 k sub)

/-- `assignOnDeepMatch(object, keys, value, isMerge)` (src/index.js lines
87-113) before collapsing identity: thaw the root, walk, and gate the
mutated root against the original with the root's own kind as the target
constructor (`FinalCrio`, line 90). -/
def assignOnDeepMatchR (object : JSVal) (keys : List JSVal) (value : JSVal)
    (isMerge : Bool) : Except CrioErr GateRes := do
  let cand ← deepWalk isMerge value (thaw object) keys
  .ok (returnCorrectObject object cand
        (if isArrayB object then CrioArray_construct else CrioObject_construct))

/-- `assignOnDeepMatch` with the identity collapsed to the returned
value. -/
def assignOnDeepMatch (object : JSVal) (keys : List JSVal) (value : JSVal)
    (isMerge : Bool) : Except CrioErr JSVal :=
  (assignOnDeepMatchR object keys value isMerge).map (resolveGate object)

/-- `setIn(keys, value)` for either collection kind (src/index.js lines
532-538 and 897-903; the two bodies are verbatim identical): reject a
non-array `keys` argument with the spec's ArgumentError, then delegate to
the deep-path engine in assign mode. -/
def crioSetIn (c keys value : JSVal) : Except CrioErr JSVal :=
  if isArrayB keys then assignOnDeepMatch c (asList keys) value false
  else .error .argumentError

/-- `mergeIn(keys, ...objects)` for either collection kind (src/index.js
lines 415-425 and 832-842; verbatim identical bodies): reject a non-array
`keys` argument with the spec's ArgumentError; with no objects return
`this`; otherwise delegate to the deep-path engine in merge mode (the
rest-argument list `objects` is passed as the engine's `value`). -/
def crioMergeIn (c keys : JSVal) (objects : List JSVal) : Except CrioErr JSVal :=
  if isArrayB keys then
    if objects.isEmpty then .ok c
    else assignOnDeepMatch c (asList keys) (.arr objects) true
  else .error .argumentError

/-! ## The keyed iteration protocol (src/index.js lines 968-987)

`CrioObject[Symbol.iterator]` captures `keys = Object.keys(this)` (the
slot names, in order — the metadata is non-enumerable) and a fresh cursor
`index = 0`; each `next()` reads `value = this[keys[index]]`, computes
`done = index >= this.length`, and increments the cursor.  The `next`
step function below takes the cursor explicitly; obtaining an iterator
always starts it at 0. -/

/-- One `next()` step of the keyed iterator at cursor position `index`:
the emitted `value` and the `done` flag.  (Past the end, `keys[index]` is
`undefined` and the read yields `undefined`; the exotic `"undefined"`
property name is not modelled.) -/
def CrioObject_iterNext (l : List (String × JSVal)) (index : Nat) : JSVal × Bool :=
  (match (l.map Prod.fst).get? index with
   | some k => (assocGet l k).getD .undef
   | none => .undef,
   decide (l.length ≤ index))

/-! ## Constructor invariants and clean raw inputs -/

mutual

/-- Well-formedness of a collection value, as established by the
constructors when the raw input mentions no reserved metadata name: the
stored hash code is the structural content of the slots, slot keys avoid
`NATIVE_KEYS`, and every slot value is a primitive or a well-formed
collection value (spec §3 I3) — never a raw container. -/
def wfColl : JSVal → Bool
  | .crioA l h => decide (h = .parr (denoteL l)) && wfSlotsL l
  | .crioO l h => decide (h = .pobj (denoteP l)) && wfSlotsP l
  | _ => false

/-- Well-formedness of an indexed collection's slot list. -/
def wfSlotsL : List JSVal → Bool
  | [] => true
  | v :: r => wfSlotV v && wfSlotsL r

/-- Well-formedness of a keyed collection's slot list. -/
def wfSlotsP : List (String × JSVal) → Bool
  | [] => true
  | (k, v) :: r => !isReservedKey k && wfSlotV v && wfSlotsP r

/-- Well-formedness of a single slot value: primitives and well-formed
collection values qualify; raw containers never appear in constructed
slots. -/
def wfSlotV : JSVal → Bool
  | .arr _ => false
  | .obj _ => false
  | .crioA l h => decide (h = .parr (denoteL l)) && wfSlotsL l
  | .crioO l h => decide (h = .pobj (denoteP l)) && wfSlotsP l
  | _ => true

end

mutual

/-- A raw value is *clean* when no raw object reachable through raw
containers mentions a reserved metadata name.  For clean inputs,
normalization drops nothing, so the hash of the raw input equals the hash
of the normalized slots.  Collection values are always clean (they stop
the raw recursion: `getRealValue` returns them unchanged). -/
def cleanRaw : JSVal → Bool
  | .arr l => cleanRawL l
  | .obj l => cleanRawP l
  | _ => true

/-- `cleanRaw` over list elements. -/
def cleanRawL : List JSVal → Bool
  | [] => true
  | v :: r => cleanRaw v && cleanRawL r

/-- `cleanRaw` over pair lists, also requiring unreserved keys. -/
def cleanRawP : List (String × JSVal) → Bool
  | [] => true
  | (k, v) :: r => !isReservedKey k && cleanRaw v && cleanRawP r

end

/-! ## Pure-level access (content of reads and writes) -/

/-- First binding of key `s` in a pure pair list. -/
def passocGet (l : List (String × PureVal)) (s : String) : Option PureVal :=
  (l.find? (fun p => p.1 == s)).map (fun p => p.2)

/-- Pure counterpart of `assocSet`. -/
def passocSet : List (String × PureVal) → String → PureVal → List (String × PureVal)
  | [], s, w => [(s, w)]
  | (k, v) :: r, s, w =>
      if k = s then (k, w) :: r else (k, v) :: passocSet r s w

/-- Pure counterpart of `setPad`. -/
def psetPad (l : List PureVal) (i : Nat) (w : PureVal) : List PureVal :=
  if i < l.length then l.set i w
  else l ++ List.replicate (i - l.length) .pundef ++ [w]

/-- Property read on structural content: mirrors `mget`. -/
def pget (p : PureVal) (k : JSVal) : PureVal :=
  match p, k with
  | .parr l, .num i => if 0 ≤ i then l.getD i.toNat .pundef else .pundef
  | .pobj l, .str s => (passocGet l s).getD .pundef
  | _, _ => (.pundef)

/-- Property write on structural content: mirrors `massign`. -/
def passn (p : PureVal) (k : JSVal) (w : PureVal) : PureVal :=
  match p, k with
  | .parr l, .num i => if 0 ≤ i then .parr (psetPad l i.toNat w) else .parr l
  | .pobj l, .str s => .pobj (passocSet l s w)
  | _, _ => p

/-! ## List-level helper lemmas -/

theorem getD_map_eq {α β : Type} (f : α → β) (l : List α) (n : Nat) (d : α) :
    (l.map f).getD n (f d) = f (l.getD n d) := by
  simp [List.getD]

theorem denoteL_getD (l : List JSVal) (n : Nat) :
    (denoteL l).getD n .pundef = denote (l.getD n .undef) := by
  rw [denoteL_eq_map]
  exact getD_map_eq denote l n .undef

theorem thawL_eq_map : ∀ l : List JSVal, thawL l = l.map thaw
  | [] => rfl
  | v :: r => by simp [thawL, thawL_eq_map r]

theorem thawP_eq_map : ∀ l : List (String × JSVal),
    thawP l = l.map (fun p => (p.1, thaw p.2))
  | [] => rfl
  | (k, v) :: r => by simp [thawP, thawP_eq_map r]

theorem normL_eq_map : ∀ l : List JSVal, normL l = l.map getRealValue
  | [] => rfl
  | v :: r => by simp [normL, normL_eq_map r]

theorem normP_eq_map : ∀ l : List (String × JSVal),
    normP l = l.map (fun p => (p.1, getRealValue p.2))
  | [] => rfl
  | (k, v) :: r => by simp [normP, normP_eq_map r]

theorem set_getElem_self {α : Type} (l : List α) (i : Nat) (h : i < l.length) :
    l.set i (l[i]) = l := by
  apply List.ext_getElem (by simp)
  intro j h1 h2
  rw [List.getElem_set]
  split
  · simp_all
  · rfl

theorem assocGet_assocSet_self (l : List (String × JSVal)) (s : String) (w : JSVal) :
    assocGet (assocSet l s w) s = some w := by
  induction l with
  | nil => simp [assocSet, assocGet]
  | cons p r ih =>
      obtain ⟨k, v⟩ := p
      by_cases hk : k = s
      · simp [assocSet, assocGet, hk]
      · rw [assocSet, if_neg hk]
        rw [assocGet, List.find?_cons_of_neg _ (by simpa using hk)]
        exact ih

theorem assocSet_self_of_get (l : List (String × JSVal)) (s : String) (v : JSVal)
    (h : assocGet l s = some v) : assocSet l s v = l := by
  induction l with
  | nil => simp [assocGet] at h
  | cons p r ih =>
      obtain ⟨k, w⟩ := p
      by_cases hk : k = s
      · rw [assocGet, List.find?_cons_of_pos _ (by simpa using hk)] at h
        simp at h
        simp [assocSet, hk, h]
      · rw [assocGet, List.find?_cons_of_neg _ (by simpa using hk)] at h
        rw [assocSet, if_neg hk, ih h]

theorem setPad_self (l : List JSVal) (i : Nat) (hi : i < l.length) :
    setPad l i (l.getD i .undef) = l := by
  unfold setPad
  rw [if_pos hi, List.getD_eq_getElem l _ hi, set_getElem_self l i hi]

theorem denoteL_setPad (l : List JSVal) (i : Nat) (w : JSVal) :
    denoteL (setPad l i w) = psetPad (denoteL l) i (denote w) := by
  unfold setPad psetPad
  rw [denoteL_eq_map, denoteL_eq_map]
  by_cases hi : i < l.length
  · have hi2 : i < (l.map denote).length := by simpa using hi
    rw [if_pos hi, if_pos hi2, List.map_set]
  · have hi2 : ¬ i < (l.map denote).length := by simpa using hi
    rw [if_neg hi, if_neg hi2]
    simp [denote]

theorem denoteP_assocSet (l : List (String × JSVal)) (s : String) (w : JSVal) :
    denoteP (assocSet l s w) = passocSet (denoteP l) s (denote w) := by
  induction l with
  | nil => simp [assocSet, passocSet, denoteP]
  | cons p r ih =>
      obtain ⟨k, v⟩ := p
      by_cases hk : k = s
      · simp [assocSet, passocSet, denoteP, hk]
      · simp [assocSet, passocSet, denoteP, hk, ih]

theorem passocGet_denoteP (l : List (String × JSVal)) (s : String) :
    passocGet (denoteP l) s = (assocGet l s).map denote := by
  induction l with
  | nil => simp [assocGet, passocGet, denoteP]
  | cons p r ih =>
      obtain ⟨k, v⟩ := p
      by_cases hk : k = s
      · rw [denoteP, passocGet, List.find?_cons_of_pos _ (by simpa using hk),
            assocGet, List.find?_cons_of_pos _ (by simpa using hk)]
        rfl
      · rw [denoteP, passocGet, List.find?_cons_of_neg _ (by simpa using hk),
            assocGet, List.find?_cons_of_neg _ (by simpa using hk)]
        exact ih

theorem passocGet_passocSet_self (l : List (String × PureVal)) (s : String) (w : PureVal) :
    passocGet (passocSet l s w) s = some w := by
  induction l with
  | nil => simp [passocSet, passocGet]
  | cons p r ih =>
      obtain ⟨k, v⟩ := p
      by_cases hk : k = s
      · simp [passocSet, passocGet, hk]
      · rw [passocSet, if_neg hk]
        rw [passocGet, List.find?_cons_of_neg _ (by simpa using hk)]
        exact ih

theorem psetPad_getD_self (l : List PureVal) (i : Nat) (w : PureVal) (hi : i ≤ l.length) :
    (psetPad l i w).getD i .pundef = w := by
  unfold psetPad
  rcases Nat.lt_or_ge i l.length with hlt | hge
  · have hlen : i < (l.set i w).length := by simpa using hlt
    rw [if_pos hlt, List.getD_eq_getElem _ _ hlen, List.getElem_set]
    simp
  · have heq : i = l.length := Nat.le_antisymm hi hge
    have hnlt : ¬ i < l.length := Nat.not_lt.mpr hge
    rw [if_neg hnlt]
    subst heq
    simp [List.getD, List.getElem?_append_right, Nat.sub_self]

/-! ## Content preservation of normalization and thaw -/

theorem filterReserved_normP (l : List (String × JSVal)) (h : cleanRawP l = true) :
    filterReserved (normP l) = normP l := by
  induction l with
  | nil => rfl
  | cons p r ih =>
      obtain ⟨k, v⟩ := p
      simp only [cleanRawP, Bool.and_eq_true] at h
      simp only [normP, filterReserved, List.filter_cons]
      rw [if_pos (by simpa using h.1.1)]
      have := ih h.2
      simp only [filterReserved] at this
      rw [this]

mutual

theorem denote_getRealValue : ∀ v : JSVal, cleanRaw v = true →
    denote (getRealValue v) = denote v
  | .num _, _ => rfl
  | .str _, _ => rfl
  | .bool _, _ => rfl
  | .undef, _ => rfl
  | .crioA _ _, _ => rfl
  | .crioO _ _, _ => rfl
  | .arr l, h => by
      simp only [cleanRaw] at h
      simp [getRealValue, denote, denoteL_normL l h]
  | .obj l, h => by
      simp only [cleanRaw] at h
      simp [getRealValue, denote, filterReserved_normP l h, denoteP_normP l h]

theorem denoteL_normL : ∀ l : List JSVal, cleanRawL l = true →
    denoteL (normL l) = denoteL l
  | [], _ => rfl
  | v :: r, h => by
      simp only [cleanRawL, Bool.and_eq_true] at h
      simp [normL, denoteL, denote_getRealValue v h.1, denoteL_normL r h.2]

theorem denoteP_normP : ∀ l : List (String × JSVal), cleanRawP l = true →
    denoteP (normP l) = denoteP l
  | [], _ => rfl
  | (k, v) :: r, h => by
      simp only [cleanRawP, Bool.and_eq_true] at h
      simp [normP, denoteP, denote_getRealValue v h.1.2, denoteP_normP r h.2]

end

theorem filterReserved_thawP (l : List (String × JSVal)) (h : wfSlotsP l = true) :
    filterReserved (thawP l) = thawP l := by
  induction l with
  | nil => rfl
  | cons p r ih =>
      obtain ⟨k, v⟩ := p
      simp only [wfSlotsP, Bool.and_eq_true] at h
      simp only [thawP, filterReserved, List.filter_cons]
      rw [if_pos (by simpa using h.1.1)]
      have := ih h.2
      simp only [filterReserved] at this
      rw [this]

mutual

theorem denote_thaw_slot : ∀ v : JSVal, wfSlotV v = true → denote (thaw v) = denote v
  | .num _, _ => rfl
  | .str _, _ => rfl
  | .bool _, _ => rfl
  | .undef, _ => rfl
  | .arr _, h => by simp [wfSlotV] at h
  | .obj _, h => by simp [wfSlotV] at h
  | .crioA l hh, h => by
      simp only [wfSlotV, Bool.and_eq_true] at h
      simp [thaw, denote, denoteL_thawL l h.2]
  | .crioO l hh, h => by
      simp only [wfSlotV, Bool.and_eq_true] at h
      simp [thaw, denote, filterReserved_thawP l h.2, denoteP_thawP l h.2]

theorem denoteL_thawL : ∀ l : List JSVal, wfSlotsL l = true →
    denoteL (thawL l) = denoteL l
  | [], _ => rfl
  | v :: r, h => by
      simp only [wfSlotsL, Bool.and_eq_true] at h
      simp [thawL, denoteL, denote_thaw_slot v h.1, denoteL_thawL r h.2]

theorem denoteP_thawP : ∀ l : List (String × JSVal), wfSlotsP l = true →
    denoteP (thawP l) = denoteP l
  | [], _ => rfl
  | (k, v) :: r, h => by
      simp only [wfSlotsP, Bool.and_eq_true] at h
      simp [thawP, denoteP, denote_thaw_slot v h.1.2, denoteP_thawP r h.2]

end

theorem wfColl_isCrio (c : JSVal) (h : wfColl c = true) : isCrioB c = true := by
  cases c <;> simp_all [wfColl, isCrioB]

theorem wfColl_wfSlotV (c : JSVal) (h : wfColl c = true) : wfSlotV c = true := by
  cases c <;> simp_all [wfColl, wfSlotV]

theorem wfSlotV_wfColl (c : JSVal) (hc : isCrioB c = true) (h : wfSlotV c = true) :
    wfColl c = true := by
  cases c <;> simp_all [wfColl, wfSlotV, isCrioB]

theorem hashCodeOf_wf (c : JSVal) (h : wfColl c = true) :
    hashCodeOf c = some (denote c) := by
  cases c <;> simp_all [wfColl, hashCodeOf, denote]

theorem denote_thaw (c : JSVal) (h : wfColl c = true) : denote (thaw c) = denote c :=
  denote_thaw_slot c (wfColl_wfSlotV c h)

/-! ## Reads and writes versus structural content -/

theorem denote_mget (v k : JSVal) : denote (mget v k) = pget (denote v) k := by
  cases v <;> cases k <;>
    simp only [mget, pget, denote] <;>
    try rfl
  case arr.num l i =>
      by_cases h0 : (0 : Int) ≤ i
      · simp only [h0, if_pos]
        exact (denoteL_getD l i.toNat).symm
      · simp [h0, denote]
  case crioA.num l hh i =>
      by_cases h0 : (0 : Int) ≤ i
      · simp only [h0, if_pos]
        exact (denoteL_getD l i.toNat).symm
      · simp [h0, denote]
  case obj.str l s =>
      rw [passocGet_denoteP]
      cases assocGet l s <;> simp [denote]
  case crioO.str l hh s =>
      rw [passocGet_denoteP]
      cases assocGet l s <;> simp [denote]

theorem denote_massign (v k w : JSVal) (hv : isCrioB v = false) :
    denote (massign v k w) = passn (denote v) k (denote w) := by
  cases v <;> cases k <;>
    simp only [massign, passn, denote] <;>
    try rfl
  case arr.num l i =>
      by_cases h0 : (0 : Int) ≤ i
      · simp [h0, denote, denoteL_setPad]
      · simp [h0, denote]
  case obj.str l s =>
      simp [denote, denoteP_assocSet]
  case crioA.num => simp [isCrioB] at hv
  case crioO.str => simp [isCrioB] at hv

/-- A key that actually addresses into a structural container (the shape
under which array writes land in range and object writes resolve). -/
def keyFits : PureVal → JSVal → Prop
  | .parr l, .num i => 0 ≤ i ∧ i.toNat ≤ l.length
  | .pobj _, .str _ => True
  | _, _ => False

theorem keyFits_of_pget_ne (p : PureVal) (k : JSVal)
    (h : pget p k ≠ .pundef) : keyFits p k := by
  cases p <;> cases k <;> simp_all only [pget, keyFits, ne_eq]
  case parr.num l i =>
      by_cases h0 : (0 : Int) ≤ i
      · refine ⟨h0, ?_⟩
        by_cases hl : i.toNat < l.length
        · exact Nat.le_of_lt hl
        · rw [if_pos h0, List.getD_eq_default] at h
          · exact absurd rfl h
          · exact Nat.le_of_not_lt hl
      · rw [if_neg h0] at h
        exact absurd rfl h
  all_goals
    first
    | exact h rfl
    | trivial

theorem pget_passn_self (p : PureVal) (k : JSVal) (w : PureVal)
    (h : keyFits p k) : pget (passn p k w) k = w := by
  cases p <;> cases k <;> simp only [keyFits] at h
  case parr.num l i =>
      obtain ⟨h0, hlen⟩ := h
      simp only [passn, pget, h0, if_pos]
      exact psetPad_getD_self _ _ _ hlen
  case pobj.str l s =>
      simp [passn, pget, passocGet_passocSet_self]

theorem passn_ne_self (p : PureVal) (k : JSVal) (w : PureVal)
    (hfit : keyFits p k) (hne : pget p k ≠ w) : passn p k w ≠ p := by
  intro he
  exact hne (by rw [← pget_passn_self p k w hfit, he])

/-! ## Well-formed slots under reads, thaw, and construction -/

theorem wfSlotsL_getD (l : List JSVal) (n : Nat) (h : wfSlotsL l = true) :
    wfSlotV (l.getD n .undef) = true := by
  induction l generalizing n with
  | nil => simp [List.getD, wfSlotV]
  | cons v r ih =>
      simp only [wfSlotsL, Bool.and_eq_true] at h
      cases n with
      | zero => simpa [List.getD] using h.1
      | succ m => simpa [List.getD] using ih m h.2

theorem wfSlotsP_assocGet (l : List (String × JSVal)) (s : String)
    (h : wfSlotsP l = true) : wfSlotV ((assocGet l s).getD .undef) = true := by
  induction l with
  | nil => simp [assocGet, wfSlotV]
  | cons p r ih =>
      obtain ⟨k, v⟩ := p
      simp only [wfSlotsP, Bool.and_eq_true] at h
      by_cases hk : k = s
      · rw [assocGet, List.find?_cons_of_pos _ (by simpa using hk)]
        simpa using h.1.2
      · rw [assocGet, List.find?_cons_of_neg _ (by simpa using hk)]
        exact ih h.2

theorem assocGet_cons_eq (k : String) (v : JSVal) (r : List (String × JSVal)) :
    assocGet ((k, v) :: r) k = some v := by
  rw [assocGet, List.find?_cons_of_pos _ (by simp)]
  rfl

theorem assocGet_cons_ne (k : String) (v : JSVal) (r : List (String × JSVal))
    (s : String) (hk : k ≠ s) : assocGet ((k, v) :: r) s = assocGet r s := by
  rw [assocGet, List.find?_cons_of_neg _ (by simpa using hk)]
  rfl

theorem wfColl_mget (c k : JSVal) (h : wfColl c = true) :
    wfSlotV (mget c k) = true := by
  cases c <;> try simp [wfColl] at h
  case crioA l hh =>
      cases k
      case num i =>
          simp only [mget]
          by_cases h0 : (0 : Int) ≤ i
          · rw [if_pos h0]
            exact wfSlotsL_getD l i.toNat h.2
          · rw [if_neg h0]
            rfl
      all_goals rfl
  case crioO l hh =>
      cases k
      case str s =>
          simp only [mget]
          exact wfSlotsP_assocGet l s h.2
      all_goals rfl

theorem assocGet_thawP (l : List (String × JSVal)) (s : String) :
    assocGet (thawP l) s = (assocGet l s).map thaw := by
  induction l with
  | nil => simp [assocGet, thawP]
  | cons p r ih =>
      obtain ⟨k, v⟩ := p
      by_cases hk : k = s
      · rw [thawP, assocGet, List.find?_cons_of_pos _ (by simpa using hk),
            assocGet, List.find?_cons_of_pos _ (by simpa using hk)]
        rfl
      · rw [thawP, assocGet, List.find?_cons_of_neg _ (by simpa using hk),
            assocGet, List.find?_cons_of_neg _ (by simpa using hk)]
        exact ih

theorem assocGet_normP (l : List (String × JSVal)) (s : String) :
    assocGet (normP l) s = (assocGet l s).map getRealValue := by
  induction l with
  | nil => simp [assocGet, normP]
  | cons p r ih =>
      obtain ⟨k, v⟩ := p
      by_cases hk : k = s
      · rw [normP, assocGet, List.find?_cons_of_pos _ (by simpa using hk),
            assocGet, List.find?_cons_of_pos _ (by simpa using hk)]
        rfl
      · rw [normP, assocGet, List.find?_cons_of_neg _ (by simpa using hk),
            assocGet, List.find?_cons_of_neg _ (by simpa using hk)]
        exact ih

theorem assocGet_filterReserved (l : List (String × JSVal)) (s : String)
    (hs : isReservedKey s = false) :
    assocGet (filterReserved l) s = assocGet l s := by
  induction l with
  | nil => rfl
  | cons p r ih =>
      obtain ⟨k, v⟩ := p
      by_cases hk : k = s
      · subst hk
        rw [filterReserved, List.filter_cons, if_pos (by simp [hs])]
        rw [assocGet_cons_eq, assocGet_cons_eq]
      · rw [assocGet_cons_ne _ _ _ _ hk]
        by_cases hr : isReservedKey k = true
        · rw [filterReserved, List.filter_cons, if_neg (by simp [hr])]
          rw [filterReserved] at ih
          exact ih
        · rw [filterReserved, List.filter_cons,
              if_pos (by simp [Bool.eq_false_iff.mpr hr])]
          rw [assocGet_cons_ne _ _ _ _ hk]
          rw [filterReserved] at ih
          exact ih

theorem mget_thaw (c k : JSVal) (h : wfColl c = true) :
    mget (thaw c) k = thaw (mget c k) := by
  cases c <;> try simp [wfColl] at h
  case crioA l hh =>
      cases k
      case num i =>
          simp only [thaw, mget]
          by_cases h0 : (0 : Int) ≤ i
          · rw [if_pos h0, if_pos h0, thawL_eq_map]
            exact getD_map_eq thaw l i.toNat .undef
          · rw [if_neg h0, if_neg h0]
            rfl
      all_goals rfl
  case crioO l hh =>
      cases k
      case str s =>
          simp only [thaw, mget]
          rw [filterReserved_thawP l h.2, assocGet_thawP]
          cases assocGet l s <;> rfl
      all_goals rfl

theorem mget_construct_arr (m : List JSVal) (i : Int) (h0 : 0 ≤ i) :
    mget (CrioArray_construct (.arr m)) (.num i) = getRealValue (m.getD i.toNat .undef) := by
  simp only [CrioArray_construct, mget, if_pos h0, normL_eq_map]
  exact getD_map_eq getRealValue m i.toNat .undef

theorem mget_construct_obj (m : List (String × JSVal)) (s : String)
    (hs : isReservedKey s = false) :
    mget (CrioObject_construct (.obj m)) (.str s) =
      getRealValue ((assocGet m s).getD .undef) := by
  simp only [CrioObject_construct, mget]
  rw [assocGet_filterReserved _ _ hs, assocGet_normP]
  cases assocGet m s <;> rfl

/-! ## Gate characterization and deep-walk error behavior -/

theorem returnCorrectObject_orig_iff (c cand : JSVal) (ctor : JSVal → JSVal) :
    returnCorrectObject c cand ctor = .orig ↔ hashCodeOf c = some (denote cand) := by
  unfold returnCorrectObject hasChanged
  cases hOp : hashCodeOf c with
  | none => simp
  | some hc =>
      by_cases he : denote cand = hc
      · simp [he]
      · simp [he]
        exact fun hs => he hs.symm

theorem returnCorrectObject_orig (c cand : JSVal) (ctor : JSVal → JSVal)
    (h : hashCodeOf c = some (denote cand)) :
    returnCorrectObject c cand ctor = .orig :=
  (returnCorrectObject_orig_iff c cand ctor).mpr h

theorem returnCorrectObject_fresh (c cand : JSVal) (ctor : JSVal → JSVal)
    (h : hashCodeOf c ≠ some (denote cand)) :
    returnCorrectObject c cand ctor = .fresh (ctor cand) := by
  unfold returnCorrectObject hasChanged
  cases hOp : hashCodeOf c with
  | none => simp
  | some hc =>
      rw [hOp] at h
      have : denote cand ≠ hc := fun he => h (by rw [he])
      simp [this]

theorem CrioArray_merge_error (r : JSVal) (objs : List JSVal) (e : CrioErr)
    (h : CrioArray_merge r objs = .error e) : e = .typeError := by
  cases r <;> simp [CrioArray_merge] at h <;> exact h.symm

theorem deepWalk_assign_ok : ∀ (keys : List JSVal) (value cur : JSVal),
    ∃ r, deepWalk false value cur keys = .ok r
  | [], _, cur => ⟨cur, rfl⟩
  | [k], value, cur =>
      ⟨massign (if isContainerB (mget cur k) then cur else massign cur k (.obj [])) k value,
       rfl⟩
  | k :: k2 :: rest, value, cur => by
      obtain ⟨r, hr⟩ :=
        deepWalk_assign_ok (k2 :: rest) value
          (if isContainerB (mget cur k) then mget cur k else .obj [])
      refine ⟨massign
        (if isContainerB (mget cur k) then cur else massign cur k (.obj [])) k r, ?_⟩
      have hstep : deepWalk false value cur (k :: k2 :: rest) = (do
          let sub ← deepWalk false value
            (if isContainerB (mget cur k) then mget cur k else .obj []) (k2 :: rest)
          Except.ok (massign
            (if isContainerB (mget cur k) then cur else massign cur k (.obj [])) k sub)) := rfl
      rw [hstep, hr]
      rfl

theorem deepWalk_error : ∀ (keys : List JSVal) (m : Bool) (value cur : JSVal)
    (e : CrioErr), deepWalk m value cur keys = .error e → e = .typeError
  | [], _, _, _, _, hE => Except.noConfusion hE
  | [k], m, value, cur, e, hE => by
      cases m with
      | false => exact Except.noConfusion hE
      | true =>
          have hstep : deepWalk true value cur [k] = (do
              let merged ←
                if isArrayB (if isContainerB (mget cur k) then cur
                             else massign cur k (.obj [])) then
                  CrioArray_merge
                    (if isContainerB (mget cur k) then mget cur k else .obj [])
                    (asList value)
                else
                  .ok (CrioObject_merge
                    (if isContainerB (mget cur k) then mget cur k else .obj [])
                    (asList value))
              Except.ok (massign
                (if isContainerB (mget cur k) then cur
                 else massign cur k (.obj [])) k merged)) := rfl
          rw [hstep] at hE
          by_cases ha : isArrayB (if isContainerB (mget cur k) then cur
                                  else massign cur k (.obj [])) = true
          · rw [if_pos ha] at hE
            cases hm : CrioArray_merge
                (if isContainerB (mget cur k) then mget cur k else .obj [])
                (asList value) with
            | ok w => rw [hm] at hE; exact Except.noConfusion hE
            | error e2 =>
                rw [hm] at hE
                injection hE with he
                exact he ▸ CrioArray_merge_error _ _ _ hm
          · rw [if_neg ha] at hE
            exact Except.noConfusion hE
  | k :: k2 :: rest, m, value, cur, e, hE => by
      have hstep : deepWalk m value cur (k :: k2 :: rest) = (do
          let sub ← deepWalk m value
            (if isContainerB (mget cur k) then mget cur k else .obj []) (k2 :: rest)
          Except.ok (massign
            (if isContainerB (mget cur k) then cur else massign cur k (.obj [])) k sub)) := rfl
      rw [hstep] at hE
      cases hw : deepWalk m value
          (if isContainerB (mget cur k) then mget cur k else .obj []) (k2 :: rest) with
      | ok w => rw [hw] at hE; exact Except.noConfusion hE
      | error e2 =>
          rw [hw] at hE
          injection hE with he
          exact he ▸ deepWalk_error (k2 :: rest) m value _ e2 hw

/-! ## Further support lemmas for the claim proofs -/

theorem denote_eq_pundef (x : JSVal) : denote x = .pundef ↔ x = .undef := by
  cases x <;> simp [denote]

theorem mget_ne_undef_container (x k : JSVal) (h : mget x k ≠ .undef) :
    isContainerB x = true := by
  cases x <;> cases k <;> simp_all [mget, isContainerB, isArrayB, isObjectB]

theorem massign_preserves_arr (l : List JSVal) (k w : JSVal) :
    ∃ m, massign (.arr l) k w = .arr m := by
  cases k <;> simp [massign]
  case num i => by_cases h0 : (0 : Int) ≤ i <;> simp [h0]

theorem massign_preserves_obj (l : List (String × JSVal)) (k w : JSVal) :
    ∃ m, massign (.obj l) k w = .obj m := by
  cases k <;> simp [massign]

theorem setPad_getD_self (l : List JSVal) (i : Nat) (w : JSVal) (hi : i ≤ l.length) :
    (setPad l i w).getD i .undef = w := by
  unfold setPad
  rcases Nat.lt_or_ge i l.length with hlt | hge
  · have hlen : i < (l.set i w).length := by simpa using hlt
    rw [if_pos hlt, List.getD_eq_getElem _ _ hlen, List.getElem_set]
    simp
  · have heq : i = l.length := Nat.le_antisymm hi hge
    have hnlt : ¬ i < l.length := Nat.not_lt.mpr hge
    rw [if_neg hnlt]
    subst heq
    simp [List.getD, List.getElem?_append_right, Nat.sub_self]

theorem set_append_singleton {α : Type} (xs : List α) (a b : α) :
    (xs ++ [a]).set xs.length b = xs ++ [b] := by
  induction xs with
  | nil => rfl
  | cons x r ih => simp [List.set]

theorem setPad_setPad (l : List JSVal) (i : Nat) (w1 w2 : JSVal) :
    setPad (setPad l i w1) i w2 = setPad l i w2 := by
  unfold setPad
  rcases Nat.lt_or_ge i l.length with hlt | hge
  · have h1 : i < (l.set i w1).length := by simpa using hlt
    rw [if_pos hlt, if_pos h1, if_pos hlt, List.set_set]
  · have hnlt : ¬ i < l.length := Nat.not_lt.mpr hge
    have hlen2 : (l ++ List.replicate (i - l.length) JSVal.undef).length = i := by
      simp
      omega
    have h2 : i < (l ++ List.replicate (i - l.length) JSVal.undef ++ [w1]).length := by
      simp
      omega
    rw [if_neg hnlt, if_pos h2, if_neg hnlt]
    have := set_append_singleton (l ++ List.replicate (i - l.length) JSVal.undef) w1 w2
    rw [hlen2] at this
    simpa using this

theorem assocSet_assocSet (l : List (String × JSVal)) (s : String) (w1 w2 : JSVal) :
    assocSet (assocSet l s w1) s w2 = assocSet l s w2 := by
  induction l with
  | nil => simp [assocSet]
  | cons p r ih =>
      obtain ⟨k, v⟩ := p
      by_cases hk : k = s
      · simp [assocSet, hk]
      · simp [assocSet, hk, ih]

theorem massign_massign (a k w1 w2 : JSVal) :
    massign (massign a k w1) k w2 = massign a k w2 := by
  cases a <;> cases k <;> simp [massign]
  case arr.num l i =>
      by_cases h0 : (0 : Int) ≤ i
      · simp [h0, massign, setPad_setPad]
      · simp [h0, massign]
  case obj.str l s => simp [massign, assocSet_assocSet]

theorem wfSlotsP_key_unreserved (l : List (String × JSVal)) (s : String) (v : JSVal)
    (h : wfSlotsP l = true) (hg : assocGet l s = some v) : isReservedKey s = false := by
  induction l with
  | nil => simp [assocGet] at hg
  | cons p r ih =>
      obtain ⟨k, w⟩ := p
      simp only [wfSlotsP, Bool.and_eq_true] at h
      by_cases hk : k = s
      · subst hk
        simpa using h.1.1
      · rw [assocGet_cons_ne _ _ _ _ hk] at hg
        exact ih h.2 hg

theorem wfSlotV_cleanRaw (v : JSVal) (h : wfSlotV v = true) : cleanRaw v = true := by
  cases v <;> simp_all [wfSlotV, cleanRaw]

theorem cleanRawL_append (a b : List JSVal) :
    cleanRawL (a ++ b) = (cleanRawL a && cleanRawL b) := by
  induction a with
  | nil => simp [cleanRawL]
  | cons v r ih => simp [cleanRawL, ih, Bool.and_assoc]

theorem cleanRawL_replicate (n : Nat) : cleanRawL (List.replicate n .undef) = true := by
  induction n with
  | zero => rfl
  | succ m ih => simp [List.replicate, cleanRawL, ih, cleanRaw]

theorem cleanRawL_set (l : List JSVal) (i : Nat) (w : JSVal)
    (hl : cleanRawL l = true) (hw : cleanRaw w = true) :
    cleanRawL (l.set i w) = true := by
  induction l generalizing i with
  | nil => simp [List.set, cleanRawL]
  | cons v r ih =>
      simp only [cleanRawL, Bool.and_eq_true] at hl
      cases i with
      | zero => simp [List.set, cleanRawL, hw, hl.2]
      | succ m => simp [List.set, cleanRawL, hl.1, ih m hl.2]

theorem cleanRawL_setPad (l : List JSVal) (i : Nat) (w : JSVal)
    (hl : cleanRawL l = true) (hw : cleanRaw w = true) :
    cleanRawL (setPad l i w) = true := by
  unfold setPad
  by_cases hi : i < l.length
  · rw [if_pos hi]
    exact cleanRawL_set l i w hl hw
  · rw [if_neg hi]
    simp [cleanRawL_append, hl, cleanRawL_replicate, cleanRawL, hw]

theorem cleanRawP_assocSet (l : List (String × JSVal)) (s : String) (w : JSVal)
    (hl : cleanRawP l = true) (hw : cleanRaw w = true)
    (hs : isReservedKey s = false) : cleanRawP (assocSet l s w) = true := by
  induction l with
  | nil => simp [assocSet, cleanRawP, hs, hw]
  | cons p r ih =>
      obtain ⟨k, v⟩ := p
      simp only [cleanRawP, Bool.and_eq_true] at hl
      by_cases hk : k = s
      · simp [assocSet, hk, cleanRawP, hs, hw, hl.2]
      · simp [assocSet, hk, cleanRawP, hl.1.1, hl.1.2, ih hl.2]

theorem cleanRaw_massign (a k w : JSVal) (ha : cleanRaw a = true)
    (hw : cleanRaw w = true)
    (hk : ∀ s : String, k = .str s → isReservedKey s = false) :
    cleanRaw (massign a k w) = true := by
  cases a <;> cases k <;> simp_all [massign, cleanRaw]
  case arr.num l i =>
      by_cases h0 : (0 : Int) ≤ i
      · simp [h0, cleanRaw, cleanRawL_setPad l i.toNat w ha hw]
      · simp [h0, cleanRaw, ha]
  case obj.str l s =>
      exact cleanRawP_assocSet l s w ha hw hk

mutual

theorem cleanRaw_thaw : ∀ v : JSVal, wfSlotV v = true → cleanRaw (thaw v) = true
  | .num _, _ => rfl
  | .str _, _ => rfl
  | .bool _, _ => rfl
  | .undef, _ => rfl
  | .arr _, h => by simp [wfSlotV] at h
  | .obj _, h => by simp [wfSlotV] at h
  | .crioA l hh, h => by
      simp only [wfSlotV, Bool.and_eq_true] at h
      simp [thaw, cleanRaw, cleanRawL_thawL l h.2]
  | .crioO l hh, h => by
      simp only [wfSlotV, Bool.and_eq_true] at h
      rw [thaw, filterReserved_thawP l h.2]
      simp [cleanRaw, cleanRawP_thawP l h.2]

theorem cleanRawL_thawL : ∀ l : List JSVal, wfSlotsL l = true →
    cleanRawL (thawL l) = true
  | [], _ => rfl
  | v :: r, h => by
      simp only [wfSlotsL, Bool.and_eq_true] at h
      simp [thawL, cleanRawL, cleanRaw_thaw v h.1, cleanRawL_thawL r h.2]

theorem cleanRawP_thawP : ∀ l : List (String × JSVal), wfSlotsP l = true →
    cleanRawP (thawP l) = true
  | [], _ => rfl
  | (k, v) :: r, h => by
      simp only [wfSlotsP, Bool.and_eq_true] at h
      simp [thawP, cleanRawP, h.1.1, cleanRaw_thaw v h.1.2, cleanRawP_thawP r h.2]

end

theorem passn_crio_ne_pundef (s0 k w : JSVal) (hs : isCrioB s0 = true) :
    passn (denote s0) k (denote w) ≠ .pundef := by
  cases s0 <;> simp [isCrioB] at hs <;> cases k <;> simp [denote, passn]
  case crioA.num l hh i =>
      by_cases h0 : (0 : Int) ≤ i <;> simp [h0]

theorem wfSlotsL_cleanRawL (l : List JSVal) (h : wfSlotsL l = true) :
    cleanRawL l = true := by
  induction l with
  | nil => rfl
  | cons v r ih =>
      simp only [wfSlotsL, Bool.and_eq_true] at h
      simp [cleanRawL, wfSlotV_cleanRaw v h.1, ih h.2]

theorem cleanRaw_getRealValue_out (x : JSVal) : cleanRaw (getRealValue x) = true := by
  cases x <;> simp [getRealValue, cleanRaw]

theorem cleanRawL_normL (l : List JSVal) : cleanRawL (normL l) = true := by
  induction l with
  | nil => rfl
  | cons v r ih => simp [normL, cleanRawL, cleanRaw_getRealValue_out, ih]

theorem assignOnDeepMatch_error (c : JSVal) (keys : List JSVal) (v : JSVal)
    (m : Bool) (e : CrioErr) (h : assignOnDeepMatch c keys v m = .error e) :
    e = .typeError := by
  unfold assignOnDeepMatch assignOnDeepMatchR at h
  cases hw : deepWalk m v (thaw c) keys with
  | ok w => rw [hw] at h; exact Except.noConfusion h
  | error e2 =>
      rw [hw] at h
      injection h with he
      exact he ▸ deepWalk_error keys m v (thaw c) e2 hw

theorem deepWalk_assign_two (cur k0 k1 v : JSVal)
    (h0 : isContainerB (mget cur k0) = true) :
    deepWalk false v cur [k0, k1] = .ok (massign cur k0 (massign (mget cur k0) k1 v)) := by
  have hstep : deepWalk false v cur [k0, k1] = (do
      let sub ← deepWalk false v
        (if isContainerB (mget cur k0) then mget cur k0 else .obj []) [k1]
      Except.ok (massign
        (if isContainerB (mget cur k0) then cur else massign cur k0 (.obj [])) k0 sub)) := rfl
  rw [hstep, if_pos h0, if_pos h0]
  have hone : deepWalk false v (mget cur k0) [k1]
      = .ok (massign
          (if isContainerB (mget (mget cur k0) k1) then mget cur k0
           else massign (mget cur k0) k1 (.obj [])) k1 v) := rfl
  rw [hone]
  by_cases h1 : isContainerB (mget (mget cur k0) k1) = true
  · rw [if_pos h1]
    rfl
  · rw [if_neg h1, massign_massign]
    rfl

theorem assocGet_get_of_nodup (l : List (String × JSVal))
    (hnd : (l.map Prod.fst).Nodup) (i : Nat) (hi : i < l.length) :
    assocGet l ((l[i]).1) = some ((l[i]).2) := by
  induction l generalizing i with
  | nil => simp at hi
  | cons p r ih =>
      obtain ⟨k, v⟩ := p
      simp only [List.map_cons, List.nodup_cons] at hnd
      cases i with
      | zero => simpa using assocGet_cons_eq k v r
      | succ m =>
          have hm : m < r.length := by simpa using hi
          simp only [List.getElem_cons_succ]
          have hkne : k ≠ (r[m]).1 := by
            intro he
            exact hnd.1 (he ▸ List.mem_map_of_mem Prod.fst (List.getElem_mem hm))
          rw [assocGet_cons_ne _ _ _ _ hkne]
          exact ih hnd.2 m hm

theorem objAssign_arr (l0 : List JSVal) (src : JSVal) :
    ∃ m, objAssign (.arr l0) src = .arr m := by
  unfold objAssign
  generalize spreadPairs src = pairs
  induction pairs generalizing l0 with
  | nil => exact ⟨l0, rfl⟩
  | cons p r ih =>
      obtain ⟨k, w⟩ := p
      simp only [List.foldl_cons]
      cases hk : parseIndex k with
      | some i =>
          simpa [assignProp, hk] using ih (setPad l0 i w)
      | none =>
          simpa [assignProp, hk] using ih l0

theorem objAssignFold_arr (l0 : List JSVal) (objs : List JSVal) :
    ∃ m, objAssignFold (.arr l0) objs = .arr m := by
  induction objs generalizing l0 with
  | nil => exact ⟨l0, rfl⟩
  | cons ob r ih =>
      obtain ⟨m1, hm1⟩ := objAssign_arr l0 ob
      simpa [objAssignFold, hm1] using ih m1

/-! ## Claim theorems -/

/-- C9: constructing either collection variant from a value that is
already a collection value of *either* kind returns that value itself
unchanged — the idempotent-wrap entry check (src/index.js lines 117-119
and 682-684) tests only `isCrio`, not the matching variant, so
constructing a CrioArray from an existing CrioObject returns that
CrioObject (and vice versa). -/
theorem C9_idempotent_wrap_any_variant :
    ∀ (la : List JSVal) (ha : PureVal) (lo : List (String × JSVal)) (ho : PureVal),
      CrioArray_construct (.crioA la ha) = .crioA la ha ∧
      CrioArray_construct (.crioO lo ho) = .crioO lo ho ∧
      CrioObject_construct (.crioA la ha) = .crioA la ha ∧
      CrioObject_construct (.crioO lo ho) = .crioO lo ho :=
  fun _ _ _ _ => ⟨rfl, rfl, rfl, rfl⟩

/-- C10: calling `concat`, `slice`, or `unshift` with zero arguments
returns the receiver itself (`GateRes.orig`, the source branch returning
`this`; the collapsed value is the same instance), an early-return
exception to the always-allocate behavior of these three operations
(src/index.js lines 150-153, 555-558, 636-639). -/
theorem C10_empty_args_return_this :
    ∀ (l : List JSVal) (h : PureVal),
      CrioArray_concatR (.crioA l h) [] = .orig ∧
      CrioArray_sliceR (.crioA l h) [] = .orig ∧
      CrioArray_unshiftR (.crioA l h) [] = .orig ∧
      CrioArray_concat (.crioA l h) [] = .crioA l h ∧
      CrioArray_slice (.crioA l h) [] = .crioA l h ∧
      CrioArray_unshift (.crioA l h) [] = .crioA l h :=
  fun _ _ => ⟨rfl, rfl, rfl, rfl, rfl, rfl⟩

/-- C7 counterexample: `concat` invoked with zero arguments returns the
original instance (`GateRes.orig`), so it is not the case that these
three operations "always construct and return a newly allocated
collection, never the original instance". -/
theorem C7_counterexample :
    CrioArray_concatR (.crioA [.num 1] (.parr [.pnum 1])) [] = .orig := rfl

/-- C7 (amended): whenever at least one argument is passed, `concat`,
`slice`, and `unshift` always construct and return a newly allocated
collection (`GateRes.fresh`), never the original instance, even when the
resulting sequence is value-identical to the original; with zero
arguments each returns the original instance (src/index.js lines
150-160, 555-561, 636-645). -/
theorem C7_nonempty_args_always_fresh :
    ∀ (l : List JSVal) (h : PureVal) (args : List JSVal) (sargs : List Int)
      (items : List JSVal),
      (args ≠ [] → CrioArray_concatR (.crioA l h) args ≠ .orig) ∧
      (sargs ≠ [] → CrioArray_sliceR (.crioA l h) sargs ≠ .orig) ∧
      (items ≠ [] → CrioArray_unshiftR (.crioA l h) items ≠ .orig) := by
  intro l h args sargs items
  refine ⟨fun ha => ?_, fun hs => ?_, fun hi => ?_⟩
  · simp [CrioArray_concatR, List.isEmpty_iff, ha]
  · simp [CrioArray_sliceR, List.isEmpty_iff, hs]
  · simp [CrioArray_unshiftR, List.isEmpty_iff, hi]

/-- C7 witness: the amended claim at a concrete input — concatenating an
empty raw array (a value-identical result) still yields a fresh
collection, as do a full slice and a nonempty unshift. -/
theorem C7_witness :
    CrioArray_concatR (.crioA [.num 1] (.parr [.pnum 1])) [.arr []] ≠ .orig ∧
    CrioArray_sliceR (.crioA [.num 1] (.parr [.pnum 1])) [0] ≠ .orig ∧
    CrioArray_unshiftR (.crioA [] (.parr [])) [.num 2] ≠ .orig :=
  ⟨(C7_nonempty_args_always_fresh [.num 1] (.parr [.pnum 1]) [.arr []] [0] [.num 2]).1
      (by decide),
   (C7_nonempty_args_always_fresh [.num 1] (.parr [.pnum 1]) [.arr []] [0] [.num 2]).2.1
      (by decide),
   (C7_nonempty_args_always_fresh [] (.parr []) [.arr []] [0] [.num 2]).2.2
      (by decide)⟩

/-- C4 counterexample: the keyed iteration protocol emits slot *values*,
not `(key, value)` pairs — on the collection `{a: 1}` the first `next()`
yields the value `1`, not the pair `["a", 1]`. -/
theorem C4_counterexample :
    (CrioObject_iterNext [("a", .num 1)] 0).1 = .num 1 ∧
    (CrioObject_iterNext [("a", .num 1)] 0).1 ≠ .arr [.str "a", .num 1] := by
  exact ⟨rfl, by decide⟩

/-- C4 (amended): for a keyed collection with slot list `l` (whose keys
are distinct, as JavaScript object keys are), the iteration protocol is a
restartable, finite, forward-only sequence of the slot *values* — not
`(key, value)` pairs: a fresh iterator starts at cursor 0, `next()` at
cursor `i < length` emits exactly the `i`-th slot's value with
`done = false`, and `done` becomes true exactly once the cursor reaches
the slot count (src/index.js lines 968-987). -/
theorem C4_iteration_emits_values :
    ∀ (l : List (String × JSVal)),
      (l.map Prod.fst).Nodup →
      (∀ i : Nat, (CrioObject_iterNext l i).2 = true ↔ l.length ≤ i) ∧
      (∀ (i : Nat) (hi : i < l.length),
        (CrioObject_iterNext l i).1 = (l[i]).2) := by
  intro l hnd
  constructor
  · intro i
    simp [CrioObject_iterNext]
  · intro i hi
    have hkey : (l.map Prod.fst)[i]? = some ((l[i]).1) := by
      simp [List.getElem?_map, List.getElem?_eq_getElem hi]
    simp only [CrioObject_iterNext, List.get?_eq_getElem?, hkey]
    rw [assocGet_get_of_nodup l hnd i hi]
    rfl

/-- C4 witness: the amended claim at a concrete input — iterating
`{a: 1, b: 2}` emits the value `2` at cursor 1 and is done at cursor 2. -/
theorem C4_witness :
    (CrioObject_iterNext [("a", .num 1), ("b", .num 2)] 1).1 = .num 2 ∧
    ((CrioObject_iterNext [("a", .num 1), ("b", .num 2)] 2).2 = true ↔ 2 ≤ 2) :=
  ⟨(C4_iteration_emits_values [("a", .num 1), ("b", .num 2)] (by decide)).2 1 (by decide),
   (C4_iteration_emits_values [("a", .num 1), ("b", .num 2)] (by decide)).1 2⟩

/-- C5: `getIn`, `setIn`, and `mergeIn` (both collection kinds share
verbatim-identical bodies) raise the spec's ArgumentError exactly when
the key-path argument is not array-shaped; the check is the first
statement of each method, before any mutation or allocation, and — the
operations being pure functions of the receiver — the original collection
is unchanged on error.  When the path is array-shaped, no ArgumentError
can arise from the rest of the operation. -/
theorem C5_path_argument_validation :
    ∀ (c keys value : JSVal) (objects : List JSVal),
      (crioGetIn c keys = .error .argumentError ↔ isArrayB keys = false) ∧
      (crioSetIn c keys value = .error .argumentError ↔ isArrayB keys = false) ∧
      (crioMergeIn c keys objects = .error .argumentError ↔ isArrayB keys = false) := by
  intro c keys value objects
  by_cases hk : isArrayB keys = true
  · refine ⟨?_, ?_, ?_⟩
    · simp [crioGetIn, hk]
    · simp only [crioSetIn, if_pos hk]
      constructor
      · intro hE
        exact absurd (assignOnDeepMatch_error c (asList keys) value false _ hE)
          (by decide)
      · intro hf
        rw [hk] at hf
        exact absurd hf (by decide)
    · simp only [crioMergeIn, if_pos hk]
      constructor
      · intro hE
        by_cases ho : objects.isEmpty
        · rw [if_pos ho] at hE
          exact Except.noConfusion hE
        · rw [if_neg ho] at hE
          exact absurd (assignOnDeepMatch_error c (asList keys) (.arr objects) true _ hE)
            (by decide)
      · intro hf
        rw [hk] at hf
        exact absurd hf (by decide)
  · have hk2 : isArrayB keys = false := by simpa using hk
    refine ⟨?_, ?_, ?_⟩
    · simp [crioGetIn, hk2]
    · simp [crioSetIn, hk2]
    · simp [crioMergeIn, hk2]

/-- C1 counterexample: a keyed collection constructed from a raw input
that mentions the reserved name `length` stores `hash({length: 5, a: 1})`
but keeps only the slot `a`, so the no-op `c.set("a", c.get("a"))`
hashes the clone `{a: 1}` differently from the stored code and constructs
a fresh instance instead of returning `c` — even though the hash function
satisfies I4 exactly. -/
theorem C1_counterexample :
    CrioObject_setR (CrioObject_construct (.obj [("length", .num 5), ("a", .num 1)])) "a"
        (CrioObject_get (CrioObject_construct (.obj [("length", .num 5), ("a", .num 1)])) "a")
      = .fresh (.crioO [("a", .num 1)] (.pobj [("a", .pnum 1)])) := by decide

/-- C1 (amended): the gate `returnCorrectObject` returns the original
collection exactly when the candidate's hash equals the original's
stored `hashCode`, and otherwise constructs a new collection from the
candidate; consequently `c.set(k, c.get(k))` returns `c` itself
(`GateRes.orig`) for every indexed or keyed collection `c` whose stored
hash code equals the hash of its slot content and every key `k` present
in `c` — which is every collection constructed from raw input free of the
reserved metadata names (`$$hashCode`, `$$type`, `length`) at any
depth. -/
theorem C1_noop_set_and_gate :
    ∀ (c cand : JSVal) (ctor : JSVal → JSVal) (l : List JSVal) (ha : PureVal)
      (lo : List (String × JSVal)) (ho : PureVal) (i : Nat) (k : String),
      (returnCorrectObject c cand ctor = .orig ↔ hashCodeOf c = some (denote cand)) ∧
      (wfColl (.crioA l ha) = true → i < l.length →
        CrioArray_setR (.crioA l ha) i
          (CrioArray_get (.crioA l ha) (.num (i : Int))) = .ok .orig) ∧
      (wfColl (.crioO lo ho) = true → (assocGet lo k).isSome = true →
        CrioObject_setR (.crioO lo ho) k
          (CrioObject_get (.crioO lo ho) k) = .orig) := by
  intro c cand ctor l ha lo ho i k
  refine ⟨returnCorrectObject_orig_iff c cand ctor, fun hwf hi => ?_, fun hwf hs => ?_⟩
  · have hget : CrioArray_get (.crioA l ha) (.num (i : Int)) = l.getD i .undef := by
      simp [CrioArray_get, mget]
    rw [hget]
    simp only [CrioArray_setR]
    rw [if_neg (by omega), setPad_self l i hi]
    simp only [wfColl, Bool.and_eq_true, decide_eq_true_eq] at hwf
    rw [returnCorrectObject_orig _ _ _ (by simp [hashCodeOf, denote, hwf.1])]
  · obtain ⟨v, hv⟩ := Option.isSome_iff_exists.mp hs
    have hget : CrioObject_get (.crioO lo ho) k = v := by
      simp [CrioObject_get, mget, hv]
    rw [hget]
    unfold CrioObject_setR
    have hsp : spreadPairs (.crioO lo ho) = lo := rfl
    rw [hsp, assocSet_self_of_get lo k v hv]
    simp only [wfColl, Bool.and_eq_true, decide_eq_true_eq] at hwf
    exact returnCorrectObject_orig _ _ _ (by simp [hashCodeOf, denote, hwf.1])

/-- C1 witness: the amended claim at concrete inputs — a no-op indexed
set on `[1, 2]` at index 1 and a no-op keyed set on `{a: 1}` both return
the original instance, and the gate instance of the first conjunct at a
concrete matching hash returns the original. -/
theorem C1_witness :
    (returnCorrectObject (.crioA [.num 1] (.parr [.pnum 1])) (.arr [.num 1])
        CrioArray_construct = .orig ↔
      hashCodeOf (.crioA [.num 1] (.parr [.pnum 1]))
        = some (denote (.arr [.num 1]))) ∧
    CrioArray_setR (.crioA [.num 1, .num 2] (.parr [.pnum 1, .pnum 2])) 1
        (CrioArray_get (.crioA [.num 1, .num 2] (.parr [.pnum 1, .pnum 2]))
          (.num (1 : Int))) = .ok .orig ∧
    CrioObject_setR (.crioO [("a", .num 1)] (.pobj [("a", .pnum 1)])) "a"
        (CrioObject_get (.crioO [("a", .num 1)] (.pobj [("a", .pnum 1)])) "a") = .orig :=
  ⟨(C1_noop_set_and_gate (.crioA [.num 1] (.parr [.pnum 1])) (.arr [.num 1])
      CrioArray_construct [.num 1, .num 2] (.parr [.pnum 1, .pnum 2])
      [("a", .num 1)] (.pobj [("a", .pnum 1)]) 1 "a").1,
   (C1_noop_set_and_gate (.crioA [.num 1] (.parr [.pnum 1])) (.arr [.num 1])
      CrioArray_construct [.num 1, .num 2] (.parr [.pnum 1, .pnum 2])
      [("a", .num 1)] (.pobj [("a", .pnum 1)]) 1 "a").2.1 (by decide) (by decide),
   (C1_noop_set_and_gate (.crioA [.num 1] (.parr [.pnum 1])) (.arr [.num 1])
      CrioArray_construct [.num 1, .num 2] (.parr [.pnum 1, .pnum 2])
      [("a", .num 1)] (.pobj [("a", .pnum 1)]) 1 "a").2.2 (by decide) (by decide)⟩

/-- C2: `CrioArray.set(i, v)` raises the spec's RangeError exactly when
the index is strictly greater than the current length — so `i = length`
is permitted and appends — and the check precedes the clone, assignment,
and gate (in the model the error result carries no new value and the
receiver, a pure value, is untouched).  For `i ≤ length` the operation
routes the assigned clone through the gate, and the returned collection's
content is the slot content with position `i` set (or, at `i = length`,
the value appended). -/
theorem C2_set_range_check :
    ∀ (l : List JSVal) (h : PureVal) (i : Nat) (v : JSVal),
      (CrioArray_set (.crioA l h) i v = .error .rangeError ↔ l.length < i) ∧
      (wfColl (.crioA l h) = true → cleanRaw v = true → i ≤ l.length →
        (CrioArray_set (.crioA l h) i v).map denote
          = .ok (.parr (psetPad (denoteL l) i (denote v)))) := by
  intro l h i v
  constructor
  · simp only [CrioArray_set, CrioArray_setR]
    by_cases hlen : l.length < i
    · simp [Except.map, hlen]
    · simp [Except.map, hlen]
  · intro hwf hv hi
    simp only [CrioArray_set, CrioArray_setR]
    rw [if_neg (by omega)]
    have hD : denote (.arr (setPad l i v)) = .parr (psetPad (denoteL l) i (denote v)) := by
      simp [denote, denoteL_setPad]
    simp only [wfColl, Bool.and_eq_true, decide_eq_true_eq] at hwf
    by_cases hh : hashCodeOf (.crioA l h) = some (denote (.arr (setPad l i v)))
    · rw [returnCorrectObject_orig _ _ _ hh]
      simp only [hashCodeOf, Option.some_inj] at hh
      simp only [Except.map, resolveGate]
      have hchain : PureVal.parr (denoteL l) = .parr (psetPad (denoteL l) i (denote v)) := by
        rw [← hwf.1, hh, hD]
      rw [show denote (.crioA l h) = PureVal.parr (denoteL l) from rfl, hchain]
    · rw [returnCorrectObject_fresh _ _ _ hh]
      simp only [Except.map, resolveGate]
      have hclean : cleanRaw (.arr (setPad l i v)) = true := by
        simpa [cleanRaw] using
          cleanRawL_setPad l i v (wfSlotsL_cleanRawL l hwf.2) hv
      have hctor : CrioArray_construct (.arr (setPad l i v))
          = getRealValue (.arr (setPad l i v)) := rfl
      rw [hctor, denote_getRealValue _ hclean, hD]

/-- C2 witness: `wrap([1, 2, 3]).set(5, 9)` fails with the RangeError and
`set(3, 9)` (index = length) appends, yielding content `[1, 2, 3, 9]`. -/
theorem C2_witness :
    CrioArray_set (.crioA [.num 1, .num 2, .num 3]
        (.parr [.pnum 1, .pnum 2, .pnum 3])) 5 (.num 9) = .error .rangeError ∧
    (CrioArray_set (.crioA [.num 1, .num 2, .num 3]
        (.parr [.pnum 1, .pnum 2, .pnum 3])) 3 (.num 9)).map denote
      = .ok (.parr [.pnum 1, .pnum 2, .pnum 3, .pnum 9]) :=
  ⟨(C2_set_range_check [.num 1, .num 2, .num 3]
      (.parr [.pnum 1, .pnum 2, .pnum 3]) 5 (.num 9)).1.mpr (by decide),
   ((C2_set_range_check [.num 1, .num 2, .num 3]
      (.parr [.pnum 1, .pnum 2, .pnum 3]) 3 (.num 9)).2
        (by decide) (by decide) (by decide)).trans rfl⟩

/-- Content of a gated indexed `set`: for a collection whose stored hash
matches its slot content and whose slots are clean, `set i v` (with
`i ≤ length`) returns — original or fresh — a collection whose content is
the slot content with position `i` updated (appending at `i = length`). -/
theorem CrioArray_set_content (l : List JSVal) (h : PureVal) (i : Nat) (v : JSVal)
    (hh : h = .parr (denoteL l)) (hcl : cleanRawL l = true)
    (hv : cleanRaw v = true) (hi : i ≤ l.length) :
    (CrioArray_set (.crioA l h) i v).map denote
      = .ok (.parr (psetPad (denoteL l) i (denote v))) := by
  simp only [CrioArray_set, CrioArray_setR]
  rw [if_neg (by omega)]
  have hD : denote (.arr (setPad l i v)) = .parr (psetPad (denoteL l) i (denote v)) := by
    simp [denote, denoteL_setPad]
  by_cases hhc : hashCodeOf (.crioA l h) = some (denote (.arr (setPad l i v)))
  · rw [returnCorrectObject_orig _ _ _ hhc]
    simp only [hashCodeOf, Option.some_inj] at hhc
    simp only [Except.map, resolveGate]
    have hchain : PureVal.parr (denoteL l)
        = .parr (psetPad (denoteL l) i (denote v)) := by
      rw [← hh, hhc, hD]
    rw [show denote (.crioA l h) = PureVal.parr (denoteL l) from rfl, hchain]
  · rw [returnCorrectObject_fresh _ _ _ hhc]
    simp only [Except.map, resolveGate]
    have hclean : cleanRaw (.arr (setPad l i v)) = true := by
      simpa [cleanRaw] using cleanRawL_setPad l i v hcl hv
    have hctor : CrioArray_construct (.arr (setPad l i v))
        = getRealValue (.arr (setPad l i v)) := rfl
    rw [hctor, denote_getRealValue _ hclean, hD]

/-- C8: a structural operation never changes the collection it is invoked
on.  In the model every operation is a pure function building a clone, so
the receiver is untouched by construction; the observable content of the
invariant is stated for the claim's scenario operation: `set i v` on a
collection constructed from clean raw content `l` returns a collection
whose content is `l` with slot `i` replaced, while every slot of the
original collection still reads its construction-time value (normalized
image of the raw element), unaffected by the set. -/
theorem C8_set_leaves_original_intact :
    ∀ (l : List JSVal) (i : Nat) (v : JSVal),
      cleanRawL l = true → cleanRaw v = true → i < l.length →
      (CrioArray_set (CrioArray_construct (.arr l)) i v).map denote
          = .ok (.parr ((denoteL l).set i (denote v))) ∧
      (∀ (j : Nat) (hj : j < l.length),
        mget (CrioArray_construct (.arr l)) (.num (j : Int)) = getRealValue (l[j])) := by
  intro l i v hcl hv hi
  constructor
  · have h1 : (PureVal.parr (denoteL (normL l)) : PureVal)
        = .parr (denoteL l) := by rw [denoteL_normL l hcl]
    have h2 := CrioArray_set_content (normL l) (.parr (denoteL l)) i v
      (by rw [denoteL_normL l hcl]) (cleanRawL_normL l) hv
      (by
        have : (normL l).length = l.length := by simp [normL_eq_map]
        omega)
    have hroot : CrioArray_construct (.arr l)
        = .crioA (normL l) (.parr (denoteL l)) := rfl
    rw [hroot, h2]
    have hlen2 : i < (denoteL l).length := by simp [denoteL_eq_map]; omega
    rw [denoteL_normL l hcl]
    unfold psetPad
    rw [if_pos hlen2]
  · intro j hj
    have := mget_construct_arr l (j : Int) (by omega)
    rw [this]
    simp only [Int.toNat_natCast]
    rw [List.getD_eq_getElem l _ hj]

/-- C8 witness: the scenario — `root = wrap([1, 2, 3])`; `root.set(1, 9)`
returns a collection whose content is `[1, 9, 3]`, and `root` itself
still reads `1`, `2`, `3` at indices 0, 1, 2. -/
theorem C8_witness :
    (CrioArray_set (CrioArray_construct (.arr [.num 1, .num 2, .num 3])) 1
        (.num 9)).map denote = .ok (.parr [.pnum 1, .pnum 9, .pnum 3]) ∧
    mget (CrioArray_construct (.arr [.num 1, .num 2, .num 3])) (.num 1) = .num 2 :=
  ⟨((C8_set_leaves_original_intact [.num 1, .num 2, .num 3] 1 (.num 9)
      (by decide) (by decide) (by decide)).1).trans rfl,
   ((C8_set_leaves_original_intact [.num 1, .num 2, .num 3] 1 (.num 9)
      (by decide) (by decide) (by decide)).2 1 (by decide)).trans rfl⟩

/-- C3 counterexample: `root = wrap({a: [1, 2]})` has an array-shaped
value at slot `a`, yet `root.mergeIn(['a'], {0: 9})` merges with the
*keyed* semantics (`Object.assign` onto the thawed array, rebuilt as a
`CrioObject`): the resulting slot is a keyed collection with keys
`"0"`/`"1"`, not an indexed collection — contradicting "indexed-collection
merge if the addressed slot's value is array-shaped". -/
theorem C3_counterexample :
    crioMergeIn (crio (.obj [("a", .arr [.num 1, .num 2])])) (.arr [.str "a"])
        [.obj [("0", .num 9)]]
      = .ok (.crioO
          [("a", .crioO [("0", .num 9), ("1", .num 2)] (.parr [.pnum 9, .pnum 2]))]
          (.pobj [("a", .pobj [("0", .pnum 9), ("1", .pnum 2)])])) ∧
    (crioMergeIn (crio (.obj [("a", .arr [.num 1, .num 2])])) (.arr [.str "a"])
        [.obj [("0", .num 9)]]).map (fun r => isArrayB (mget r (.str "a")))
      = .ok false :=
  ⟨rfl, rfl⟩

theorem cleanRaw_CrioArray_construct (x : JSVal) :
    cleanRaw (CrioArray_construct x) = true := by
  cases x <;> rfl

theorem cleanRaw_CrioObject_construct (x : JSVal) :
    cleanRaw (CrioObject_construct x) = true := by
  cases x <;> rfl

/-- Keyed containing node, array-shaped slot (the disagreeing dispatch):
`mergeIn` at a single key of a keyed root applies the *keyed* merge —
`Object.assign` of the objects onto the thawed array, rebuilt by the
`CrioObject` constructor — because `isArray(currentObject)`
(src/index.js line 104) tests the containing node, not the slot. -/
theorem mergeIn_keyed_root_array_slot :
    ∀ (slots : List (String × JSVal)) (h : PureVal) (k : String)
      (l : List JSVal) (hl : PureVal) (objs : List JSVal),
      wfColl (.crioO slots h) = true →
      assocGet slots k = some (.crioA l hl) →
      objs ≠ [] →
      (crioMergeIn (.crioO slots h) (.arr [.str k]) objs).map
          (fun r => mget r (.str k))
        = .ok (CrioObject_construct (objAssignFold (.arr (thawL l)) objs)) := by
  intro slots h k l hl objs hwf hget hobjs
  simp only [wfColl, Bool.and_eq_true, decide_eq_true_eq] at hwf
  have hthaw : thaw (.crioO slots h) = .obj (thawP slots) := by
    rw [thaw, filterReserved_thawP slots hwf.2]
  have hcv : mget (.obj (thawP slots)) (.str k) = .arr (thawL l) := by
    simp only [mget, assocGet_thawP, hget, Option.map_some]
    rfl
  -- the merge applied at the final key: the keyed body on the raw array
  obtain ⟨m, hm⟩ := objAssignFold_arr (thawL l) objs
  have hMctor : CrioObject_merge (.arr (thawL l)) objs
      = CrioObject_construct (objAssignFold (.arr (thawL l)) objs) := by
    simp [CrioObject_merge, isCrioB, returnCorrectObject, hasChanged,
          hashCodeOf, resolveGate]
  set M := CrioObject_construct (objAssignFold (.arr (thawL l)) objs) with hMdef
  -- the walk produces the mutated root
  have hwalk : deepWalk true (.arr objs) (.obj (thawP slots)) [.str k]
      = .ok (.obj (assocSet (thawP slots) k M)) := by
    have hstep : deepWalk true (.arr objs) (.obj (thawP slots)) [.str k] = (do
        let merged ←
          if isArrayB (if isContainerB (mget (.obj (thawP slots)) (.str k))
                       then .obj (thawP slots)
                       else massign (.obj (thawP slots)) (.str k) (.obj [])) then
            CrioArray_merge
              (if isContainerB (mget (.obj (thawP slots)) (.str k))
               then mget (.obj (thawP slots)) (.str k) else .obj [])
              (asList (.arr objs))
          else
            .ok (CrioObject_merge
              (if isContainerB (mget (.obj (thawP slots)) (.str k))
               then mget (.obj (thawP slots)) (.str k) else .obj [])
              (asList (.arr objs)))
        Except.ok (massign
          (if isContainerB (mget (.obj (thawP slots)) (.str k))
           then .obj (thawP slots)
           else massign (.obj (thawP slots)) (.str k) (.obj [])) (.str k) merged)) := rfl
    rw [hstep, hcv]
    rfl
  -- the outer gate always constructs: the slot's content changed kind
  have hMshape : M = .crioO (indexPairs (normL m)) (.parr (denoteL m)) := by
    rw [hMdef, hm]
    rfl
  have hDcand : denote (.obj (assocSet (thawP slots) k M))
      = .pobj (passocSet (denoteP (thawP slots)) k (denote M)) := by
    simp [denote, denoteP_assocSet]
  have hne : hashCodeOf (.crioO slots h)
      ≠ some (denote (.obj (assocSet (thawP slots) k M))) := by
    simp only [hashCodeOf]
    intro heq
    injection heq with heq2
    rw [hwf.1, hDcand] at heq2
    have hslot : pget (.pobj (denoteP slots)) (.str k) = .parr (denoteL l) := by
      have hmg := denote_mget (.crioO slots h) (.str k)
      simp only [mget, hget, Option.getD_some, denote] at hmg
      exact hmg.symm
    have hslot2 : pget (.pobj (passocSet (denoteP (thawP slots)) k (denote M))) (.str k)
        = denote M := by
      simp [pget, passocGet_passocSet_self]
    have hpg := congrArg (fun p => pget p (JSVal.str k)) heq2
    simp only at hpg
    rw [hslot, hslot2] at hpg
    have hdM : denote M = .pobj (denoteP (indexPairs (normL m))) := by
      rw [hMshape]
      rfl
    rw [hdM] at hpg
    exact PureVal.noConfusion hpg
  -- assemble
  have hkres : isReservedKey k = false :=
    wfSlotsP_key_unreserved slots k _ hwf.2 hget
  have hE : crioMergeIn (.crioO slots h) (.arr [.str k]) objs
      = .ok (CrioObject_construct (.obj (assocSet (thawP slots) k M))) := by
    have h1 : crioMergeIn (.crioO slots h) (.arr [.str k]) objs
        = assignOnDeepMatch (.crioO slots h) [.str k] (.arr objs) true := by
      simp [crioMergeIn, List.isEmpty_iff, hobjs, asList, isArrayB]
    have h2 : assignOnDeepMatch (.crioO slots h) [.str k] (.arr objs) true
        = .ok (resolveGate (.crioO slots h)
            (returnCorrectObject (.crioO slots h)
              (.obj (assocSet (thawP slots) k M)) CrioObject_construct)) := by
      unfold assignOnDeepMatch assignOnDeepMatchR
      rw [hthaw, hwalk]
      rfl
    rw [h1, h2, returnCorrectObject_fresh _ _ _ hne]
    rfl
  rw [hE]
  simp only [Except.map]
  rw [mget_construct_obj _ _ hkres, assocGet_assocSet_self]
  rw [hMshape]
  rfl

/-- Keyed containing node, keyed slot: the keyed merge applies, exactly
as for the array-shaped slot — the dispatch only ever consults the
containing node.  Stated at the content level because a merge that
changes nothing lets the gate return the original instance. -/
theorem mergeIn_keyed_root_keyed_slot :
    ∀ (slots : List (String × JSVal)) (h : PureVal) (k : String)
      (ol : List (String × JSVal)) (hol : PureVal) (objs : List JSVal),
      wfColl (.crioO slots h) = true →
      assocGet slots k = some (.crioO ol hol) →
      objs ≠ [] →
      (crioMergeIn (.crioO slots h) (.arr [.str k]) objs).map
          (fun r => denote (mget r (.str k)))
        = .ok (denote (CrioObject_construct
            (objAssignFold (thaw (.crioO ol hol)) objs))) := by
  intro slots h k ol hol objs hwfu hget hobjs
  have hwf := hwfu
  simp only [wfColl, Bool.and_eq_true, decide_eq_true_eq] at hwf
  have hthaw : thaw (.crioO slots h) = .obj (thawP slots) := by
    rw [thaw, filterReserved_thawP slots hwf.2]
  have hcv : mget (.obj (thawP slots)) (.str k)
      = .obj (filterReserved (thawP ol)) := by
    simp only [mget, assocGet_thawP, hget, Option.map_some]
    rfl
  set M := CrioObject_construct (objAssignFold (thaw (.crioO ol hol)) objs)
    with hMdef
  have hkres : isReservedKey k = false :=
    wfSlotsP_key_unreserved slots k _ hwf.2 hget
  have hwalk : deepWalk true (.arr objs) (.obj (thawP slots)) [.str k]
      = .ok (.obj (assocSet (thawP slots) k M)) := by
    have hstep : deepWalk true (.arr objs) (.obj (thawP slots)) [.str k] = (do
        let merged ←
          if isArrayB (if isContainerB (mget (.obj (thawP slots)) (.str k))
                       then .obj (thawP slots)
                       else massign (.obj (thawP slots)) (.str k) (.obj [])) then
            CrioArray_merge
              (if isContainerB (mget (.obj (thawP slots)) (.str k))
               then mget (.obj (thawP slots)) (.str k) else .obj [])
              (asList (.arr objs))
          else
            .ok (CrioObject_merge
              (if isContainerB (mget (.obj (thawP slots)) (.str k))
               then mget (.obj (thawP slots)) (.str k) else .obj [])
              (asList (.arr objs)))
        Except.ok (massign
          (if isContainerB (mget (.obj (thawP slots)) (.str k))
           then .obj (thawP slots)
           else massign (.obj (thawP slots)) (.str k) (.obj [])) (.str k) merged)) := rfl
    rw [hstep, hcv]
    rfl
  have hE : crioMergeIn (.crioO slots h) (.arr [.str k]) objs
      = .ok (resolveGate (.crioO slots h)
          (returnCorrectObject (.crioO slots h)
            (.obj (assocSet (thawP slots) k M)) CrioObject_construct)) := by
    have h1 : crioMergeIn (.crioO slots h) (.arr [.str k]) objs
        = assignOnDeepMatch (.crioO slots h) [.str k] (.arr objs) true := by
      simp [crioMergeIn, List.isEmpty_iff, hobjs, asList, isArrayB]
    have h2 : assignOnDeepMatch (.crioO slots h) [.str k] (.arr objs) true
        = .ok (resolveGate (.crioO slots h)
            (returnCorrectObject (.crioO slots h)
              (.obj (assocSet (thawP slots) k M)) CrioObject_construct)) := by
      unfold assignOnDeepMatch assignOnDeepMatchR
      rw [hthaw, hwalk]
      rfl
    rw [h1, h2]
  have hclean : cleanRaw (.obj (assocSet (thawP slots) k M)) = true :=
    cleanRawP_assocSet (thawP slots) k M (cleanRawP_thawP slots hwf.2)
      (by rw [hMdef]; exact cleanRaw_CrioObject_construct _) hkres
  have hDcand : denote (.obj (assocSet (thawP slots) k M))
      = passn (denote (.crioO slots h)) (.str k) (denote M) := by
    simp only [denote, denoteP_assocSet, passn, denoteP_thawP slots hwf.2]
  have hdr : denote (resolveGate (.crioO slots h)
      (returnCorrectObject (.crioO slots h)
        (.obj (assocSet (thawP slots) k M)) CrioObject_construct))
      = denote (.obj (assocSet (thawP slots) k M)) := by
    by_cases hh : hashCodeOf (.crioO slots h)
        = some (denote (.obj (assocSet (thawP slots) k M)))
    · rw [returnCorrectObject_orig _ _ _ hh]
      simp only [resolveGate]
      rw [hashCodeOf_wf _ hwfu] at hh
      injection hh with hh2
    · rw [returnCorrectObject_fresh _ _ _ hh]
      simp only [resolveGate]
      have hcc : CrioObject_construct (.obj (assocSet (thawP slots) k M))
          = getRealValue (.obj (assocSet (thawP slots) k M)) := rfl
      rw [hcc]
      exact denote_getRealValue _ hclean
  have hfit : keyFits (denote (.crioO slots h)) (.str k) := True.intro
  rw [hE]
  simp only [Except.map]
  congr 1
  rw [denote_mget, hdr, hDcand, pget_passn_self _ _ _ hfit]

/-- Indexed containing node, array-shaped slot: the *indexed* merge
applies — the element-wise `object[keyIndex] || clone[keyIndex]` map
over the thawed slot, rebuilt by the `CrioArray` constructor.  Stated at
the content level because a merge that changes nothing lets the gate
return the original instance. -/
theorem mergeIn_indexed_root_array_slot :
    ∀ (cl : List JSVal) (hc : PureVal) (i : Nat) (el : List JSVal)
      (hel : PureVal) (objs : List JSVal),
      wfColl (.crioA cl hc) = true →
      mget (.crioA cl hc) (.num (i : Int)) = .crioA el hel →
      objs ≠ [] →
      (crioMergeIn (.crioA cl hc) (.arr [.num (i : Int)]) objs).map
          (fun r => denote (mget r (.num (i : Int))))
        = .ok (denote (CrioArray_construct
            (.arr (mergeMapFold (thawL el) objs)))) := by
  intro cl hc i el hel objs hwfu hsl hobjs
  have hwf := hwfu
  simp only [wfColl, Bool.and_eq_true, decide_eq_true_eq] at hwf
  have h0 : (0 : Int) ≤ (i : Int) := Int.natCast_nonneg i
  have hilt : i < cl.length := by
    by_contra hge
    have hd : cl.getD i .undef = .undef :=
      List.getD_eq_default _ _ (Nat.le_of_not_lt hge)
    have hu : mget (.crioA cl hc) (.num (i : Int)) = .undef := by
      simp only [mget]
      rw [if_pos h0, Int.toNat_natCast]
      exact hd
    rw [hsl] at hu
    exact JSVal.noConfusion hu
  have hcv : mget (.arr (thawL cl)) (.num (i : Int)) = .arr (thawL el) := by
    have hmt := mget_thaw (.crioA cl hc) (.num (i : Int)) hwfu
    rw [hsl] at hmt
    exact hmt
  set M := CrioArray_construct (.arr (mergeMapFold (thawL el) objs)) with hMdef
  have hwalk : deepWalk true (.arr objs) (.arr (thawL cl)) [.num (i : Int)]
      = .ok (massign (.arr (thawL cl)) (.num (i : Int)) M) := by
    have hstep : deepWalk true (.arr objs) (.arr (thawL cl)) [.num (i : Int)] = (do
        let merged ←
          if isArrayB (if isContainerB (mget (.arr (thawL cl)) (.num (i : Int)))
                       then .arr (thawL cl)
                       else massign (.arr (thawL cl)) (.num (i : Int)) (.obj [])) then
            CrioArray_merge
              (if isContainerB (mget (.arr (thawL cl)) (.num (i : Int)))
               then mget (.arr (thawL cl)) (.num (i : Int)) else .obj [])
              (asList (.arr objs))
          else
            .ok (CrioObject_merge
              (if isContainerB (mget (.arr (thawL cl)) (.num (i : Int)))
               then mget (.arr (thawL cl)) (.num (i : Int)) else .obj [])
              (asList (.arr objs)))
        Except.ok (massign
          (if isContainerB (mget (.arr (thawL cl)) (.num (i : Int)))
           then .arr (thawL cl)
           else massign (.arr (thawL cl)) (.num (i : Int)) (.obj []))
          (.num (i : Int)) merged)) := rfl
    rw [hstep, hcv]
    rfl
  have hE : crioMergeIn (.crioA cl hc) (.arr [.num (i : Int)]) objs
      = .ok (resolveGate (.crioA cl hc)
          (returnCorrectObject (.crioA cl hc)
            (massign (.arr (thawL cl)) (.num (i : Int)) M) CrioArray_construct)) := by
    have h1 : crioMergeIn (.crioA cl hc) (.arr [.num (i : Int)]) objs
        = assignOnDeepMatch (.crioA cl hc) [.num (i : Int)] (.arr objs) true := by
      simp [crioMergeIn, List.isEmpty_iff, hobjs, asList, isArrayB]
    have h2 : assignOnDeepMatch (.crioA cl hc) [.num (i : Int)] (.arr objs) true
        = .ok (resolveGate (.crioA cl hc)
            (returnCorrectObject (.crioA cl hc)
              (massign (.arr (thawL cl)) (.num (i : Int)) M) CrioArray_construct)) := by
      unfold assignOnDeepMatch assignOnDeepMatchR
      rw [show thaw (JSVal.crioA cl hc) = JSVal.arr (thawL cl) from rfl, hwalk]
      rfl
    rw [h1, h2]
  have hmassign : massign (.arr (thawL cl)) (.num (i : Int)) M
      = .arr (setPad (thawL cl) i M) := by
    simp only [massign]
    rw [if_pos h0, Int.toNat_natCast]
  have hclean : cleanRaw (.arr (setPad (thawL cl) i M)) = true :=
    cleanRawL_setPad (thawL cl) i M (cleanRawL_thawL cl hwf.2)
      (by rw [hMdef]; exact cleanRaw_CrioArray_construct _)
  have hDcand : denote (.arr (setPad (thawL cl) i M))
      = passn (denote (.crioA cl hc)) (.num (i : Int)) (denote M) := by
    simp only [denote, denoteL_setPad, passn]
    rw [if_pos h0, Int.toNat_natCast, denoteL_thawL cl hwf.2]
  have hdr : denote (resolveGate (.crioA cl hc)
      (returnCorrectObject (.crioA cl hc)
        (massign (.arr (thawL cl)) (.num (i : Int)) M) CrioArray_construct))
      = denote (.arr (setPad (thawL cl) i M)) := by
    rw [hmassign]
    by_cases hh : hashCodeOf (.crioA cl hc)
        = some (denote (.arr (setPad (thawL cl) i M)))
    · rw [returnCorrectObject_orig _ _ _ hh]
      simp only [resolveGate]
      rw [hashCodeOf_wf _ hwfu] at hh
      injection hh with hh2
    · rw [returnCorrectObject_fresh _ _ _ hh]
      simp only [resolveGate]
      have hcc : CrioArray_construct (.arr (setPad (thawL cl) i M))
          = getRealValue (.arr (setPad (thawL cl) i M)) := rfl
      rw [hcc]
      exact denote_getRealValue _ hclean
  have hfit : keyFits (denote (.crioA cl hc)) (.num (i : Int)) := by
    show (0 : Int) ≤ (i : Int) ∧ ((i : Int)).toNat ≤ (denoteL cl).length
    refine ⟨h0, ?_⟩
    rw [Int.toNat_natCast, denoteL_eq_map, List.length_map]
    exact Nat.le_of_lt hilt
  rw [hE]
  simp only [Except.map]
  congr 1
  rw [denote_mget, hdr, hDcand, pget_passn_self _ _ _ hfit]

/-- Indexed containing node, keyed slot: the dispatch still picks the
indexed merge (`CrioArray.prototype.merge`), whose body calls `.map` on
the shallow clone of the keyed slot value — a TypeError (src/index.js
line 402); no merge is performed. -/
theorem mergeIn_indexed_root_keyed_slot :
    ∀ (cl : List JSVal) (hc : PureVal) (i : Nat)
      (ol : List (String × JSVal)) (hol : PureVal) (objs : List JSVal),
      wfColl (.crioA cl hc) = true →
      mget (.crioA cl hc) (.num (i : Int)) = .crioO ol hol →
      objs ≠ [] →
      crioMergeIn (.crioA cl hc) (.arr [.num (i : Int)]) objs
        = .error .typeError := by
  intro cl hc i ol hol objs hwfu hsl hobjs
  have hcv : mget (.arr (thawL cl)) (.num (i : Int))
      = .obj (filterReserved (thawP ol)) := by
    have hmt := mget_thaw (.crioA cl hc) (.num (i : Int)) hwfu
    rw [hsl] at hmt
    exact hmt
  have hwalk : deepWalk true (.arr objs) (.arr (thawL cl)) [.num (i : Int)]
      = .error .typeError := by
    have hstep : deepWalk true (.arr objs) (.arr (thawL cl)) [.num (i : Int)] = (do
        let merged ←
          if isArrayB (if isContainerB (mget (.arr (thawL cl)) (.num (i : Int)))
                       then .arr (thawL cl)
                       else massign (.arr (thawL cl)) (.num (i : Int)) (.obj [])) then
            CrioArray_merge
              (if isContainerB (mget (.arr (thawL cl)) (.num (i : Int)))
               then mget (.arr (thawL cl)) (.num (i : Int)) else .obj [])
              (asList (.arr objs))
          else
            .ok (CrioObject_merge
              (if isContainerB (mget (.arr (thawL cl)) (.num (i : Int)))
               then mget (.arr (thawL cl)) (.num (i : Int)) else .obj [])
              (asList (.arr objs)))
        Except.ok (massign
          (if isContainerB (mget (.arr (thawL cl)) (.num (i : Int)))
           then .arr (thawL cl)
           else massign (.arr (thawL cl)) (.num (i : Int)) (.obj []))
          (.num (i : Int)) merged)) := rfl
    rw [hstep, hcv]
    rfl
  have h1 : crioMergeIn (.crioA cl hc) (.arr [.num (i : Int)]) objs
      = assignOnDeepMatch (.crioA cl hc) [.num (i : Int)] (.arr objs) true := by
    simp [crioMergeIn, List.isEmpty_iff, hobjs, asList, isArrayB]
  rw [h1]
  unfold assignOnDeepMatch assignOnDeepMatchR
  rw [show thaw (JSVal.crioA cl hc) = JSVal.arr (thawL cl) from rfl, hwalk]
  rfl

/-- C3 (amended): `mergeIn` in merge mode dispatches the terminal
shallow-merge on the collection kind of the node *containing* the final
key (`isArray(currentObject)`, src/index.js line 104), not on the kind
of the addressed slot's own value.  Established end-to-end for
single-key paths — where the containing node is the root — over all four
kind combinations: a keyed root applies the keyed merge (`Object.assign`
of the objects onto the thawed slot value, rebuilt by the `CrioObject`
constructor) to an array-shaped slot (thereby rebuilding it as a keyed
collection) and to a keyed slot alike; an indexed root applies the
indexed merge body, which for an array-shaped slot yields the
element-wise `object[keyIndex] || clone[keyIndex]` merge and for a keyed
slot raises a TypeError (`clone.map` on a non-array), performing no
merge at all. -/
theorem C3_mergeIn_dispatches_on_container :
    ∀ (slots : List (String × JSVal)) (h : PureVal) (k : String)
      (l el : List JSVal) (hl hel : PureVal)
      (ol : List (String × JSVal)) (hol : PureVal)
      (cl : List JSVal) (hc : PureVal) (i : Nat) (objs : List JSVal),
      (wfColl (.crioO slots h) = true →
       assocGet slots k = some (.crioA l hl) →
       objs ≠ [] →
       (crioMergeIn (.crioO slots h) (.arr [.str k]) objs).map
           (fun r => mget r (.str k))
         = .ok (CrioObject_construct (objAssignFold (.arr (thawL l)) objs))) ∧
      (wfColl (.crioO slots h) = true →
       assocGet slots k = some (.crioO ol hol) →
       objs ≠ [] →
       (crioMergeIn (.crioO slots h) (.arr [.str k]) objs).map
           (fun r => denote (mget r (.str k)))
         = .ok (denote (CrioObject_construct
             (objAssignFold (thaw (.crioO ol hol)) objs)))) ∧
      (wfColl (.crioA cl hc) = true →
       mget (.crioA cl hc) (.num (i : Int)) = .crioA el hel →
       objs ≠ [] →
       (crioMergeIn (.crioA cl hc) (.arr [.num (i : Int)]) objs).map
           (fun r => denote (mget r (.num (i : Int))))
         = .ok (denote (CrioArray_construct
             (.arr (mergeMapFold (thawL el) objs))))) ∧
      (wfColl (.crioA cl hc) = true →
       mget (.crioA cl hc) (.num (i : Int)) = .crioO ol hol →
       objs ≠ [] →
       crioMergeIn (.crioA cl hc) (.arr [.num (i : Int)]) objs
         = .error .typeError) :=
  fun slots h k l el hl hel ol hol cl hc i objs =>
    ⟨mergeIn_keyed_root_array_slot slots h k l hl objs,
     mergeIn_keyed_root_keyed_slot slots h k ol hol objs,
     mergeIn_indexed_root_array_slot cl hc i el hel objs,
     mergeIn_indexed_root_keyed_slot cl hc i ol hol objs⟩

/-- C3 witness: the four dispatch branches at concrete inputs — merging
`{0: 9}` at the array-valued slot `a` of `wrap({a: [1, 2]})` applies the
keyed merge; merging `{c: 2}` at the object-valued slot `a` of
`wrap({a: {b: 1}})` likewise; merging `{0: 9}` at index 0 of
`wrap([[1]])` applies the indexed merge; merging `{c: 2}` at index 0 of
`wrap([{b: 1}])` raises a TypeError. -/
theorem C3_witness :
    (crioMergeIn
        (.crioO [("a", .crioA [.num 1, .num 2] (.parr [.pnum 1, .pnum 2]))]
          (.pobj [("a", .parr [.pnum 1, .pnum 2])]))
        (.arr [.str "a"]) [.obj [("0", .num 9)]]).map (fun r => mget r (.str "a"))
      = .ok (CrioObject_construct
          (objAssignFold (.arr (thawL [.num 1, .num 2])) [.obj [("0", .num 9)]])) ∧
    (crioMergeIn
        (.crioO [("a", .crioO [("b", .num 1)] (.pobj [("b", .pnum 1)]))]
          (.pobj [("a", .pobj [("b", .pnum 1)])]))
        (.arr [.str "a"]) [.obj [("c", .num 2)]]).map
        (fun r => denote (mget r (.str "a")))
      = .ok (denote (CrioObject_construct
          (objAssignFold (thaw (.crioO [("b", .num 1)] (.pobj [("b", .pnum 1)])))
            [.obj [("c", .num 2)]]))) ∧
    (crioMergeIn
        (.crioA [.crioA [.num 1] (.parr [.pnum 1])] (.parr [.parr [.pnum 1]]))
        (.arr [.num ((0 : Nat) : Int)]) [.obj [("0", .num 9)]]).map
        (fun r => denote (mget r (.num ((0 : Nat) : Int))))
      = .ok (denote (CrioArray_construct
          (.arr (mergeMapFold (thawL [.num 1]) [.obj [("0", .num 9)]])))) ∧
    crioMergeIn
        (.crioA [.crioO [("b", .num 1)] (.pobj [("b", .pnum 1)])]
          (.parr [.pobj [("b", .pnum 1)]]))
        (.arr [.num ((0 : Nat) : Int)]) [.obj [("c", .num 2)]]
      = .error .typeError :=
  ⟨(C3_mergeIn_dispatches_on_container
      [("a", .crioA [.num 1, .num 2] (.parr [.pnum 1, .pnum 2]))]
      (.pobj [("a", .parr [.pnum 1, .pnum 2])]) "a" [.num 1, .num 2] []
      (.parr [.pnum 1, .pnum 2]) (.pundef) [] (.pundef) [] (.pundef) 0
      [.obj [("0", .num 9)]]).1 (by decide) (by decide) (by decide),
   (C3_mergeIn_dispatches_on_container
      [("a", .crioO [("b", .num 1)] (.pobj [("b", .pnum 1)]))]
      (.pobj [("a", .pobj [("b", .pnum 1)])]) "a" [] [] (.pundef) (.pundef)
      [("b", .num 1)] (.pobj [("b", .pnum 1)]) [] (.pundef) 0
      [.obj [("c", .num 2)]]).2.1 (by decide) (by decide) (by decide),
   (C3_mergeIn_dispatches_on_container [] (.pundef) "" [] [.num 1] (.pundef)
      (.parr [.pnum 1]) [] (.pundef)
      [.crioA [.num 1] (.parr [.pnum 1])] (.parr [.parr [.pnum 1]]) 0
      [.obj [("0", .num 9)]]).2.2.1 (by decide) (by decide) (by decide),
   (C3_mergeIn_dispatches_on_container [] (.pundef) "" [] [] (.pundef) (.pundef)
      [("b", .num 1)] (.pobj [("b", .pnum 1)])
      [.crioO [("b", .num 1)] (.pobj [("b", .pnum 1)])]
      (.parr [.pobj [("b", .pnum 1)]]) 0 [.obj [("c", .num 2)]]).2.2.2
      (by decide) (by decide) (by decide)⟩

theorem isCrio_thaw_not_crio (x : JSVal) (hx : isCrioB x = true) :
    isCrioB (thaw x) = false := by
  cases x <;> simp_all [isCrioB, thaw]

theorem isCrio_thaw_container (x : JSVal) (hx : isCrioB x = true) :
    isContainerB (thaw x) = true := by
  cases x <;> simp_all [isCrioB, thaw, isContainerB, isArrayB, isObjectB]

theorem wfSlotV_container_crio (x : JSVal) (h1 : wfSlotV x = true)
    (h2 : isContainerB x = true) : isCrioB x = true := by
  cases x <;> simp_all [wfSlotV, isContainerB, isArrayB, isObjectB, isCrioB]

theorem isCrio_denote_ne_pundef (x : JSVal) (hx : isCrioB x = true) :
    denote x ≠ .pundef := by
  cases x <;> simp_all [isCrioB, denote]

theorem isUndefinedB_eq_false (x : JSVal) (hx : x ≠ .undef) :
    isUndefinedB x = false := by
  cases x <;> simp_all [isUndefinedB]

/-- C6 counterexample: the round trip is not structural equality with the
assigned value for every `v` — setting a raw object that mentions the
reserved name `length` stores its *normalized* image, which drops that
key: `wrap({a: {b: 1}}).setIn(['a','b'], {length: 5}).getIn(['a','b'])`
reads back an empty keyed collection, not a value equal to
`{length: 5}`. -/
theorem C6_counterexample :
    ((crioSetIn (crio (.obj [("a", .obj [("b", .num 1)])])) (.arr [.str "a", .str "b"])
        (.obj [("length", .num 5)])).bind
      (fun r => crioGetIn r (.arr [.str "a", .str "b"])))
      = .ok (.crioO [] (.pobj [("length", .pnum 5)])) ∧
    denote (.crioO [] (.pobj [("length", .pnum 5)]))
      ≠ denote (.obj [("length", .num 5)]) :=
  ⟨rfl, by decide⟩

/-- C6 (amended): for a collection root `c`, a two-element key path
`[k0, k1]` addressing an existing nested value, and a value `v` whose raw
content mentions no reserved metadata name (in particular any primitive,
collection value, or ordinary raw container), the collection returned by
`setIn([k0, k1], v)` yields, at `getIn([k0, k1])`, the normalized image
of `v` — a value structurally equal to `v` (raw containers are read back
as their immutable collection images). -/
theorem C6_deep_path_round_trip :
    ∀ (c k0 k1 v : JSVal),
      wfColl c = true → cleanRaw v = true →
      mget (mget c k0) k1 ≠ .undef →
      ((crioSetIn c (.arr [k0, k1]) v).bind
          (fun r => crioGetIn r (.arr [k0, k1]))).map denote
        = .ok (denote v) := by
  intro c k0 k1 v hwf hv hne
  have hcrio : isCrioB c = true := wfColl_isCrio c hwf
  have hs0ne : mget c k0 ≠ .undef := by
    intro h0
    exact hne (by rw [h0]; rfl)
  have hs0cont : isContainerB (mget c k0) = true := mget_ne_undef_container _ _ hne
  have hs0wfV : wfSlotV (mget c k0) = true := wfColl_mget c k0 hwf
  have hs0crio : isCrioB (mget c k0) = true :=
    wfSlotV_container_crio _ hs0wfV hs0cont
  have hs0wf : wfColl (mget c k0) = true := wfSlotV_wfColl _ hs0crio hs0wfV
  -- the deep walk produces the doubly-assigned thawed root
  have hcv : mget (thaw c) k0 = thaw (mget c k0) := mget_thaw c k0 hwf
  have hwalk : deepWalk false v (thaw c) [k0, k1]
      = .ok (massign (thaw c) k0 (massign (thaw (mget c k0)) k1 v)) := by
    have h2 := deepWalk_assign_two (thaw c) k0 k1 v
      (by rw [hcv]; exact isCrio_thaw_container _ hs0crio)
    rw [hcv] at h2
    exact h2
  -- key fit on the structural contents
  have hpg0 : pget (denote c) k0 = denote (mget c k0) := (denote_mget c k0).symm
  have hfit0 : keyFits (denote c) k0 :=
    keyFits_of_pget_ne _ _ (by rw [hpg0]; exact isCrio_denote_ne_pundef _ hs0crio)
  have hpg1 : pget (denote (mget c k0)) k1 = denote (mget (mget c k0) k1) :=
    (denote_mget _ k1).symm
  have hfit1 : keyFits (denote (mget c k0)) k1 :=
    keyFits_of_pget_ne _ _
      (by rw [hpg1]; intro hq; exact hne ((denote_eq_pundef _).mp hq))
  -- string keys along the path are unreserved
  have hk0res : ∀ s : String, k0 = .str s → isReservedKey s = false := by
    intro s hks
    subst hks
    cases c with
    | crioO lc hc =>
        simp only [wfColl, Bool.and_eq_true, decide_eq_true_eq] at hwf
        cases hga : assocGet lc s with
        | none => exact absurd (by simp [mget, hga]) hs0ne
        | some w => exact wfSlotsP_key_unreserved lc s w hwf.2 hga
    | crioA lc hc => exact absurd rfl hs0ne
    | num n => simp [wfColl] at hwf
    | str s2 => simp [wfColl] at hwf
    | bool b => simp [wfColl] at hwf
    | undef => simp [wfColl] at hwf
    | arr lc => simp [wfColl] at hwf
    | obj lc => simp [wfColl] at hwf
  have hk1res : ∀ s : String, k1 = .str s → isReservedKey s = false := by
    intro s hks
    subst hks
    cases hc0 : mget c k0 with
    | crioO lc hc =>
        rw [hc0] at hs0wf hne
        simp only [wfColl, Bool.and_eq_true, decide_eq_true_eq] at hs0wf
        cases hga : assocGet lc s with
        | none => exact absurd (by simp [mget, hga]) hne
        | some w => exact wfSlotsP_key_unreserved lc s w hs0wf.2 hga
    | crioA lc hc => rw [hc0] at hne; exact absurd rfl hne
    | num n => rw [hc0] at hne; exact absurd rfl hne
    | str s2 => rw [hc0] at hne; exact absurd rfl hne
    | bool b => rw [hc0] at hne; exact absurd rfl hne
    | undef => rw [hc0] at hne; exact absurd rfl hne
    | arr lc => rw [hc0] at hs0wfV; simp [wfSlotV] at hs0wfV
    | obj lc => rw [hc0] at hs0wfV; simp [wfSlotV] at hs0wfV
  -- the candidate is clean, and its content is the passn chain
  have hcleanX : cleanRaw (massign (thaw (mget c k0)) k1 v) = true :=
    cleanRaw_massign _ _ _ (cleanRaw_thaw _ hs0wfV) hv hk1res
  have hcleancand : cleanRaw (massign (thaw c) k0
      (massign (thaw (mget c k0)) k1 v)) = true :=
    cleanRaw_massign _ _ _ (cleanRaw_thaw c (wfColl_wfSlotV c hwf)) hcleanX hk0res
  have hDcand : denote (massign (thaw c) k0 (massign (thaw (mget c k0)) k1 v))
      = passn (denote c) k0 (passn (denote (mget c k0)) k1 (denote v)) := by
    rw [denote_massign _ _ _ (isCrio_thaw_not_crio c hcrio),
        denote_massign _ _ _ (isCrio_thaw_not_crio _ hs0crio),
        denote_thaw c hwf, denote_thaw_slot _ hs0wfV]
  -- the gated set
  have hset : crioSetIn c (.arr [k0, k1]) v
      = .ok (resolveGate c (returnCorrectObject c
          (massign (thaw c) k0 (massign (thaw (mget c k0)) k1 v))
          (if isArrayB c then CrioArray_construct else CrioObject_construct))) := by
    have h1 : crioSetIn c (.arr [k0, k1]) v
        = assignOnDeepMatch c [k0, k1] v false := by
      simp [crioSetIn, asList, isArrayB]
    rw [h1]
    unfold assignOnDeepMatch assignOnDeepMatchR
    rw [hwalk]
    rfl
  -- the returned collection has the candidate's content, original or fresh
  have hdr : denote (resolveGate c (returnCorrectObject c
      (massign (thaw c) k0 (massign (thaw (mget c k0)) k1 v))
      (if isArrayB c then CrioArray_construct else CrioObject_construct)))
      = passn (denote c) k0 (passn (denote (mget c k0)) k1 (denote v)) := by
    by_cases hh : hashCodeOf c
        = some (denote (massign (thaw c) k0 (massign (thaw (mget c k0)) k1 v)))
    · rw [returnCorrectObject_orig _ _ _ hh]
      rw [hashCodeOf_wf c hwf] at hh
      injection hh with hh2
      simp only [resolveGate]
      exact hh2.trans hDcand
    · rw [returnCorrectObject_fresh _ _ _ hh]
      simp only [resolveGate]
      rw [← hDcand]
      cases c with
      | crioA lc hc =>
          obtain ⟨mm, hmm⟩ := massign_preserves_arr (thawL lc)
            k0 (massign (thaw (mget (.crioA lc hc) k0)) k1 v)
          have hth : thaw (.crioA lc hc) = .arr (thawL lc) := rfl
          rw [hth, hmm]
          have hab : isArrayB (.crioA lc hc) = true := rfl
          rw [hab]
          simp only [if_true]
          have hcc : CrioArray_construct (.arr mm) = getRealValue (.arr mm) := rfl
          rw [hcc, denote_getRealValue]
          rw [hth, hmm] at hcleancand
          exact hcleancand
      | crioO lc hc =>
          obtain ⟨mm, hmm⟩ := massign_preserves_obj (filterReserved (thawP lc))
            k0 (massign (thaw (mget (.crioO lc hc) k0)) k1 v)
          have hth : thaw (.crioO lc hc) = .obj (filterReserved (thawP lc)) := rfl
          rw [hth, hmm]
          have hab : isArrayB (.crioO lc hc) = false := rfl
          rw [hab]
          simp only [Bool.false_eq_true, if_false]
          have hcc : CrioObject_construct (.obj mm) = getRealValue (.obj mm) := rfl
          rw [hcc, denote_getRealValue]
          rw [hth, hmm] at hcleancand
          exact hcleancand
      | num n => simp [wfColl] at hwf
      | str s2 => simp [wfColl] at hwf
      | bool b => simp [wfColl] at hwf
      | undef => simp [wfColl] at hwf
      | arr lc => simp [wfColl] at hwf
      | obj lc => simp [wfColl] at hwf
  -- read the result back
  rw [hset]
  have hgr0 : denote (mget (resolveGate c (returnCorrectObject c
      (massign (thaw c) k0 (massign (thaw (mget c k0)) k1 v))
      (if isArrayB c then CrioArray_construct else CrioObject_construct))) k0)
      = passn (denote (mget c k0)) k1 (denote v) := by
    rw [denote_mget, hdr, pget_passn_self _ _ _ hfit0]
  have hmr0ne : mget (resolveGate c (returnCorrectObject c
      (massign (thaw c) k0 (massign (thaw (mget c k0)) k1 v))
      (if isArrayB c then CrioArray_construct else CrioObject_construct))) k0
      ≠ .undef := by
    intro hzz
    rw [hzz] at hgr0
    exact passn_crio_ne_pundef _ k1 v hs0crio hgr0.symm
  have hu : denote (mget (mget (resolveGate c (returnCorrectObject c
      (massign (thaw c) k0 (massign (thaw (mget c k0)) k1 v))
      (if isArrayB c then CrioArray_construct else CrioObject_construct))) k0) k1)
      = denote v := by
    rw [denote_mget, hgr0, pget_passn_self _ _ _ hfit1]
  have hget2 : crioGetIn (resolveGate c (returnCorrectObject c
      (massign (thaw c) k0 (massign (thaw (mget c k0)) k1 v))
      (if isArrayB c then CrioArray_construct else CrioObject_construct)))
      (.arr [k0, k1])
      = .ok (mget (mget (resolveGate c (returnCorrectObject c
          (massign (thaw c) k0 (massign (thaw (mget c k0)) k1 v))
          (if isArrayB c then CrioArray_construct else CrioObject_construct))) k0) k1) := by
    have hok : (isArrayB (JSVal.arr [k0, k1]) : Bool) = true := rfl
    simp only [crioGetIn, asList, hok, if_true]
    simp only [getInLoop]
    rw [isUndefinedB_eq_false _ hmr0ne]
    simp [getInLoop]
  show (Except.ok _ >>= fun r => crioGetIn r (.arr [k0, k1])).map denote = _
  rw [show (Except.ok (resolveGate c (returnCorrectObject c
      (massign (thaw c) k0 (massign (thaw (mget c k0)) k1 v))
      (if isArrayB c then CrioArray_construct else CrioObject_construct))) >>=
        fun r => crioGetIn r (.arr [k0, k1]))
      = crioGetIn (resolveGate c (returnCorrectObject c
          (massign (thaw c) k0 (massign (thaw (mget c k0)) k1 v))
          (if isArrayB c then CrioArray_construct else CrioObject_construct)))
        (.arr [k0, k1]) from rfl]
  rw [hget2]
  simp only [Except.map]
  rw [hu]

/-- C6 witness: the amended claim at a concrete input —
`wrap({a: {b: 1}}).setIn(['a','b'], 42).getIn(['a','b'])` reads back a
value structurally equal to `42`. -/
theorem C6_witness :
    ((crioSetIn (.crioO [("a", .crioO [("b", .num 1)] (.pobj [("b", .pnum 1)]))]
          (.pobj [("a", .pobj [("b", .pnum 1)])]))
        (.arr [.str "a", .str "b"]) (.num 42)).bind
      (fun r => crioGetIn r (.arr [.str "a", .str "b"]))).map denote
      = .ok (denote (.num 42)) :=
  C6_deep_path_round_trip
    (.crioO [("a", .crioO [("b", .num 1)] (.pobj [("b", .pnum 1)]))]
      (.pobj [("a", .pobj [("b", .pnum 1)])]))
    (.str "a") (.str "b") (.num 42) (by decide) (by decide) (by decide)
